import Mathlib

/-!
Verification development for the go-powerwall client library.

The Go source is shallowly embedded: pure logic is translated into
executable Lean functions; effectful steps (HTTP calls, the login
round-trip, channel operations) are made explicit as function
parameters (environments / oracles) or as step relations, and the
requests/logins performed by a function are reported as an explicit
event trace.  Machine integers are modelled as Nat/Int with explicit
bounds where the Go code checks for overflow.
-/

set_option maxRecDepth 4096

/-- A Go `error` value.  Only its presence/identity matters for the
properties below, so it is modelled as a wrapped message string. -/
inductive GoError where
  | mk (msg : String)
deriving DecidableEq, Repr

/-! ## Auth coordinator (part_002: `performLogin`, `doAuthMsg`, `authManager`) -/

/-- Embedding of `(*Client).performLogin` (part_002 lines 269-296).

The HTTP + unmarshal step `apiPostJson("login/Basic", ld, &resp)` is
abstracted by its outcome: `respToken` is the `Token` field of the
(possibly partially) unmarshalled `loginResponse`, and `apiErr` is the
error returned by `apiPostJson` (which can be non-nil even when a token
was extracted, since `json.Unmarshal` fills fields it can decode before
reporting an error).  Returns the `(string, error)` pair of the Go
function, with `Option GoError` for the nilable error. -/
def performLogin (respToken : String) (apiErr : Option GoError) : String × Option GoError :=
  if respToken ≠ "" then
    -- "We got back a token.  We're good!"
    (respToken, none)
  else
    match apiErr with
    | some e => ("", some e)
    | none => ("", some (GoError.mk "No auth token returned from login API call"))

/-- The `action` field of an `authMessage` (part_002 lines 147-151). -/
inductive AuthAction where
  | doLogin
  | checkLogin
  | setToken
deriving DecidableEq, Repr

/-- An `authMessage` (part_002 lines 153-159).  Email/password are
omitted: they are only forwarded to `performLogin`, whose outcome is
already abstracted by the `api` argument of `doAuthMsg`. -/
structure AuthMessage where
  action : AuthAction
  token : String
deriving DecidableEq, Repr

/-- Embedding of `(*Client).doAuthMsg` (part_002 lines 232-250).

State-passing form: takes the current value of the coordinator's
`authToken` variable and returns its new value, together with the value
sent on the message's `result_ch` reply channel (`none` when no reply is
sent, i.e. for `cmd_SET_TOKEN`; `some e?` when the error value `e?` is
sent).  `api` is the outcome of the `apiPostJson` call that
`performLogin` would make, as in `performLogin`. -/
def doAuthMsg (msg : AuthMessage) (authToken : String)
    (api : String × Option GoError) : String × Option (Option GoError) :=
  match msg.action with
  | .setToken => (msg.token, none)
  | .doLogin =>
      -- *authToken, err = c.performLogin(...); msg.result_ch <- err
      let r := performLogin api.1 api.2
      (r.1, some r.2)
  | .checkLogin =>
      if authToken = "" then
        let r := performLogin api.1 api.2
        (r.1, some r.2)
      else
        (authToken, some none)

/-- What one iteration of the `authManager` loop (part_002 lines 208-230)
ends up servicing. -/
inductive Serviced where
  | mutation
  | tokenRead
deriving DecidableEq, Repr

/-- One iteration of the `authManager` worker loop (part_002 lines
211-229) as a step relation over channel availability.

`firstMutReady` says whether a message was pending on `auth_ch` at the
first, non-blocking `select` (the one with a `default` branch);
`mutReady`/`readReady` say which operations are ready when the second,
blocking `select` commits.  Per Go semantics, when several cases of a
`select` are ready, one is chosen by uniform pseudo-random selection, so
both outcomes are included in the relation when the second select has
both a sender on `auth_ch` and a receiver on `token_ch` ready. -/
inductive authManagerStep : Bool → Bool → Bool → Serviced → Prop where
  | firstSelect (m r : Bool) : authManagerStep true m r .mutation
  | onlyMut : authManagerStep false true false .mutation
  | onlyRead : authManagerStep false false true .tokenRead
  | bothMut : authManagerStep false true true .mutation
  | bothRead : authManagerStep false true true .tokenRead

/-! ## JSON values and a model of encoding/json parsing

The library decodes all HTTP bodies with Go's encoding/json.  JSON
documents are modelled by the `Json` AST below and parsing by
`jsonParse`.  Numbers are modelled as integers: every numeric value the
library's claims exercise is integral, and `encoding/json` decodes a
JSON number into `interface{}` as a `float64`, which for integral
values within the exact range behaves as the integer it denotes
(non-integral literals are outside this model and are rejected by the
parser; exponents are applied when they keep the value integral). -/

inductive Json where
  | null
  | bool (b : Bool)
  | num (n : Int)
  | str (s : String)
  | arr (elems : List Json)
  | obj (fields : List (String × Json))

/-- JSON whitespace per RFC 8259 (space, tab, newline, carriage return). -/
def isJsonWs (c : Char) : Bool :=
  c = ' ' || c = '\t' || c = '\n' || c = '\r'

def skipWs (cs : List Char) : List Char :=
  cs.dropWhile isJsonWs

def isDigitCh (c : Char) : Bool :=
  '0' ≤ c && c ≤ '9'

def hexVal? (c : Char) : Option Nat :=
  if '0' ≤ c ∧ c ≤ '9' then some (c.toNat - 48)
  else if 'a' ≤ c ∧ c ≤ 'f' then some (c.toNat - 87)
  else if 'A' ≤ c ∧ c ≤ 'F' then some (c.toNat - 55)
  else none

/-- Body of a JSON string after the opening quote, handling the escape
sequences of RFC 8259.  Returns the decoded string and the input after
the closing quote. -/
def parseStringBody : List Char → Option (String × List Char)
  | [] => none
  | '"' :: rest => some ("", rest)
  | '\\' :: esc =>
      match esc with
      | 'u' :: h1 :: h2 :: h3 :: h4 :: rest =>
          match hexVal? h1, hexVal? h2, hexVal? h3, hexVal? h4 with
          | some a, some b, some c, some d =>
              (parseStringBody rest).map fun p =>
                (String.mk (Char.ofNat (((a * 16 + b) * 16 + c) * 16 + d) :: p.1.data), p.2)
          | _, _, _, _ => none
      | c :: rest =>
          let dec? : Option Char :=
            if c = '"' then some '"'
            else if c = '\\' then some '\\'
            else if c = '/' then some '/'
            else if c = 'b' then some (Char.ofNat 8)
            else if c = 'f' then some (Char.ofNat 12)
            else if c = 'n' then some '\n'
            else if c = 'r' then some '\r'
            else if c = 't' then some '\t'
            else none
          match dec? with
          | some d => (parseStringBody rest).map fun p => (String.mk (d :: p.1.data), p.2)
          | none => none
      | [] => none
  | c :: rest =>
      (parseStringBody rest).map fun p => (String.mk (c :: p.1.data), p.2)

def digitsToNat (ds : List Char) : Nat :=
  ds.foldl (fun a c => a * 10 + (c.toNat - 48)) 0

/-- Exponent suffix of a JSON number ('e'/'E' with optional '+';
negative exponents would make the value non-integral and are outside
the model). -/
def parseNumExp (neg : Bool) (n : Nat) : List Char → Option (Json × List Char)
  | 'e' :: rest =>
      let rest1 := match rest with | '+' :: r => r | r => r
      let es := rest1.takeWhile isDigitCh
      if es = [] then none
      else
        let v : Int := (n : Int) * (10 : Int) ^ digitsToNat es
        some (.num (if neg then -v else v), rest1.dropWhile isDigitCh)
  | 'E' :: rest =>
      let rest1 := match rest with | '+' :: r => r | r => r
      let es := rest1.takeWhile isDigitCh
      if es = [] then none
      else
        let v : Int := (n : Int) * (10 : Int) ^ digitsToNat es
        some (.num (if neg then -v else v), rest1.dropWhile isDigitCh)
  | rest => some (.num (if neg then -(n : Int) else (n : Int)), rest)

/-- A JSON number literal, restricted to integral values (a fractional
part is accepted only when it is all zeros). -/
def parseNum (cs : List Char) : Option (Json × List Char) :=
  let p := match cs with
    | '-' :: r => (true, r)
    | r => (false, r)
  let ds := p.2.takeWhile isDigitCh
  let r1 := p.2.dropWhile isDigitCh
  if ds = [] then none
  else
    let n := digitsToNat ds
    match r1 with
    | '.' :: r2 =>
        let fs := r2.takeWhile isDigitCh
        if fs = [] then none
        else if fs.all (· = '0') then parseNumExp p.1 n (r2.dropWhile isDigitCh)
        else none
    | _ => parseNumExp p.1 n r1

mutual

/-- A JSON value (fuel-indexed recursive descent). -/
def parseVal : Nat → List Char → Option (Json × List Char)
  | 0, _ => none
  | fuel + 1, cs =>
    match skipWs cs with
    | 'n' :: 'u' :: 'l' :: 'l' :: rest => some (.null, rest)
    | 't' :: 'r' :: 'u' :: 'e' :: rest => some (.bool true, rest)
    | 'f' :: 'a' :: 'l' :: 's' :: 'e' :: rest => some (.bool false, rest)
    | '"' :: rest => (parseStringBody rest).map fun p => (.str p.1, p.2)
    | '[' :: rest =>
        match skipWs rest with
        | ']' :: rest2 => some (.arr [], rest2)
        | rest2 => (parseElems fuel rest2).map fun p => (.arr p.1, p.2)
    | '{' :: rest =>
        match skipWs rest with
        | '}' :: rest2 => some (.obj [], rest2)
        | rest2 => (parseMembers fuel rest2).map fun p => (.obj p.1, p.2)
    | rest => parseNum rest

/-- Comma-separated array elements up to the closing bracket. -/
def parseElems : Nat → List Char → Option (List Json × List Char)
  | 0, _ => none
  | fuel + 1, cs =>
    match parseVal fuel cs with
    | none => none
    | some (v, rest) =>
      match skipWs rest with
      | ',' :: rest2 => (parseElems fuel rest2).map fun p => (v :: p.1, p.2)
      | ']' :: rest2 => some ([v], rest2)
      | _ => none

/-- Comma-separated object members up to the closing brace. -/
def parseMembers : Nat → List Char → Option (List (String × Json) × List Char)
  | 0, _ => none
  | fuel + 1, cs =>
    match skipWs cs with
    | '"' :: rest =>
      match parseStringBody rest with
      | none => none
      | some (k, rest2) =>
        match skipWs rest2 with
        | ':' :: rest3 =>
          match parseVal fuel rest3 with
          | none => none
          | some (v, rest4) =>
            match skipWs rest4 with
            | ',' :: rest5 => (parseMembers fuel rest5).map fun p => ((k, v) :: p.1, p.2)
            | '}' :: rest5 => some ([(k, v)], rest5)
            | _ => none
        | _ => none
    | _ => none

end

/-- Parse a complete JSON document (the whole input must be consumed). -/
def jsonParse (s : String) : Option Json :=
  match parseVal (4 * (s.data.length + 1)) s.data with
  | some (v, rest) => if skipWs rest = [] then some v else none
  | none => none

/-- Last binding of `key` in an object's field list (encoding/json gives
later duplicate keys precedence). -/
def jsonFieldLast (fs : List (String × Json)) (key : String) : Option Json :=
  fs.foldl (fun acc p => if p.1 = key then some p.2 else acc) none

/-- The `error` and `message` string fields recovered best-effort from a
401/403 response body, as `json.Unmarshal(body, &errInfo)` with the
error ignored does (part_008 lines 278-279): missing fields, fields of
the wrong type, or an unparsable body leave the zero value `""`. -/
def parseErrorResponse (body : String) : String × String :=
  match jsonParse body with
  | some (.obj fs) =>
      let get : String → String := fun k =>
        match jsonFieldLast fs k with
        | some (.str s) => s
        | _ => ""
      (get "error", get "message")
  | _ => ("", "")

/-! ## Request executor (part_008: `httpDo`, `doHttpRequest`) -/

/-- Outcome of one `c.httpClient.Do(req)` attempt inside `httpDo`:
either an error value, distinguished by whether it implements
`net.Error` (only those retry), or a completed response with an HTTP
status code and body (`err == nil`). -/
inductive AttemptResult where
  | netErr (e : GoError)
  | otherErr (e : GoError)
  | resp (status : Nat) (body : String)
deriving DecidableEq, Repr

/-- One attempt together with the wall-clock time (ns) that
`httpClient.Do` took to produce it. -/
structure HttpAttempt where
  res : AttemptResult
  dur : Nat
deriving DecidableEq, Repr

/-- The client's retry settings as installed by `SetRetry` (part_008
lines 161-165): `c.retryInterval` and `c.retryTimeout`.  Durations are
signed (Go `time.Duration`), in ns. -/
structure RetryConfig where
  interval : Int
  timeout : Int
deriving DecidableEq, Repr

/-- Observable event of the `httpDo` loop: an HTTP attempt, or a
`time.Sleep` of the given length (a non-positive argument to
`time.Sleep` returns immediately, i.e. sleeps 0). -/
inductive HttpDoEvent where
  | attempt (r : AttemptResult)
  | sleep (d : Nat)
deriving DecidableEq, Repr

/-- Embedding of the retry loop of `(*Client).httpDo` (part_008 lines
167-191) over an explicit timing trace.

`elapsed` is wall-clock ns since `start_time`; `attempts` supplies the
outcome and duration of each successive `httpClient.Do` call.  Following
the source: a result whose error is not a `net.Error` (including a nil
error, whatever the HTTP status) exits the loop at once; on a
`net.Error` the loop exits if `time.Now().Sub(start_time) >=
c.retryTimeout`, and otherwise sleeps `retryInterval` minus the time the
failed attempt consumed (a negative remainder sleeps 0) and retries.
Returns `none` when the attempt trace is exhausted before the loop
exits, otherwise the returned result, the final elapsed time, and the
event trace. -/
def httpDoLoop (cfg : RetryConfig) : Nat → List HttpAttempt →
    Option (AttemptResult × Nat × List HttpDoEvent)
  | _, [] => none
  | elapsed, a :: rest =>
    let now := elapsed + a.dur
    match a.res with
    | .netErr e =>
        if cfg.timeout ≤ (now : Int) then
          -- "We've retried as long as we can.  Give up."
          some (.netErr e, now, [.attempt (.netErr e)])
        else
          let slp := (cfg.interval - (a.dur : Int)).toNat
          match httpDoLoop cfg (now + slp) rest with
          | none => none
          | some (r, t, tr) => some (r, t, .attempt (.netErr e) :: .sleep slp :: tr)
    | r => some (r, now, [.attempt r])

/-- `httpDo` run from `start_time` (elapsed 0). -/
def httpDo (cfg : RetryConfig) (attempts : List HttpAttempt) :
    Option (AttemptResult × Nat × List HttpDoEvent) :=
  httpDoLoop cfg 0 attempts

/-- Error results of `doHttpRequest`: an error value passed through
(from `httpDo` or `DoLogin`), an `AuthFailure` (errors.go lines 23-27)
or an `ApiError` (errors.go lines 11-15).  The URL is represented by its
path. -/
inductive ReqError where
  | goErr (e : GoError)
  | authFailure (urlPath errorText message : String)
  | apiError (urlPath : String) (status : Nat) (body : String)
deriving DecidableEq, Repr

/-- Overall outcome of one `httpDo` call as seen by `doHttpRequest`: a
final error, or a response with status and body. -/
inductive HttpOutcome where
  | err (e : GoError)
  | resp (status : Nat) (body : String)
deriving DecidableEq, Repr

/-- Environment of one `doHttpRequest` call: the coordinator token
returned by the first `GetAuthToken`, the outcome of the first `httpDo`
(as a whole, including its internal retries), the result of `DoLogin`,
the token returned by `GetAuthToken` after re-login, and the outcome of
the retried `httpDo`.  The last three are only consulted on the re-auth
path. -/
structure ReqEnv where
  token1 : String
  first : HttpOutcome
  loginErr : Option GoError
  token2 : String
  second : HttpOutcome
deriving DecidableEq, Repr

/-- Observable events of `doHttpRequest`: reading the coordinator's
token via `GetAuthToken`, issuing an HTTP request carrying an
`AuthCookie` of the given value (`none` = no cookie attached), and a
`DoLogin` call. -/
inductive ReqEvent where
  | tokenRead (t : String)
  | request (cookie : Option String)
  | login
deriving DecidableEq, Repr

/-- `strings.HasPrefix` (the test `strings.HasPrefix(api, "login/")` at
part_008 line 225), as a character-list prefix test. -/
def goHasPre (pre s : String) : Bool :=
  pre.data.isPrefixOf s.data

/-- Common tail of `doHttpRequest` (part_008 lines 269-297): classify
the final response.  Status 401/403 becomes an `AuthFailure` carrying
the best-effort `error`/`message` fields of the body; any other status
outside 200-299 becomes an `ApiError`; otherwise the body is returned. -/
def finishResponse (api : String) (status : Nat) (body : String) : Except ReqError String :=
  if status = 401 ∨ status = 403 then
    let ei := parseErrorResponse body
    .error (.authFailure ("api/" ++ api) ei.1 ei.2)
  else if status < 200 ∨ 300 ≤ status then
    .error (.apiError ("api/" ++ api) status body)
  else
    .ok body

/-- Embedding of `(*Client).doHttpRequest` (part_008 lines 193-298),
with the HTTP and auth side effects reported as an event trace.

For an api path beginning with `"login/"`, the request is issued with
no auth cookie and no re-auth retry.  Otherwise the coordinator's token
is read and attached as the `AuthCookie` cookie when non-empty; a
401/403 response triggers `DoLogin` and, when that succeeds, exactly
one retried request whose `Cookie` header is replaced by the freshly
read token (the retry attaches the cookie even if that token is
empty, as `req.AddCookie` does). -/
def doHttpRequest (api : String) (env : ReqEnv) : Except ReqError String × List ReqEvent :=
  if goHasPre "login/" api then
    match env.first with
    | .err e => (.error (.goErr e), [.request none])
    | .resp st body => (finishResponse api st body, [.request none])
  else
    let cookie1 : Option String := if env.token1 = "" then none else some env.token1
    let ev0 : List ReqEvent := [.tokenRead env.token1, .request cookie1]
    match env.first with
    | .err e => (.error (.goErr e), ev0)
    | .resp st body =>
      if st = 401 ∨ st = 403 then
        match env.loginErr with
        | some e => (.error (.goErr e), ev0 ++ [.login])
        | none =>
          let ev1 := ev0 ++ [.login, .tokenRead env.token2, .request (some env.token2)]
          match env.second with
          | .err e => (.error (.goErr e), ev1)
          | .resp st2 body2 => (finishResponse api st2 body2, ev1)
      else
        (finishResponse api st body, ev0)

/-- The requests present in a `doHttpRequest` trace (cookie values, in
order). -/
def requestsOf (tr : List ReqEvent) : List (Option String) :=
  tr.filterMap fun ev =>
    match ev with
    | .request c => some c
    | _ => none

/-- The `DoLogin` calls present in a trace. -/
def loginsOf (tr : List ReqEvent) : Nat :=
  (tr.filter fun ev => ev = .login).length

/-! ## DecodedAlert (part_005: `DecodedAlert.UnmarshalJSON`) -/

/-- The local `entry` struct of `DecodedAlert.UnmarshalJSON` (part_005
lines 64-68): `Name string`, `Value interface{}`, `Units interface{}`.
The `interface{}` fields hold whatever JSON value was present
(`Json.null` models the nil interface). -/
structure AlertEntry where
  name : String
  value : Json
  units : Json

/-- `json.Unmarshal` of one JSON value into the `entry` struct: an
object fills the known fields (a `name` of the wrong type is a type
error failing the unmarshal; JSON null leaves a field untouched;
unknown keys are ignored — Go also matches field names
case-insensitively, which no claim exercises), a JSON null leaves the
struct at its zero value, anything else is a type error. -/
def decodeEntry (j : Json) : Option AlertEntry :=
  match j with
  | .null => some ⟨"", .null, .null⟩
  | .obj fs =>
      fs.foldl (fun acc p =>
        match acc with
        | none => none
        | some e =>
          if p.1 = "name" then
            match p.2 with
            | .str s => some { e with name := s }
            | .null => some e
            | _ => none
          else if p.1 = "value" then some { e with value := p.2 }
          else if p.1 = "units" then some { e with units := p.2 }
          else some e) (some ⟨"", .null, .null⟩)
  | _ => none

/-- `json.Unmarshal` of the inner document into `[]entry`: must be a
JSON array of entries (null yields the nil slice). -/
def decodeEntries (j : Json) : Option (List AlertEntry) :=
  match j with
  | .null => some []
  | .arr xs => xs.mapM decodeEntry
  | _ => none

/-- The inner decode step `json.Unmarshal([]byte(strvalue), &entries)`:
parse the embedded string as JSON, then decode the entry list.  `none`
is the non-nil-error case. -/
def entriesOf (strvalue : String) : Option (List AlertEntry) :=
  match jsonParse strvalue with
  | some j => decodeEntries j
  | none => none

mutual

/-- Go `fmt` "%v" rendering of an `interface{}` decoded from JSON, used
by the fallback branch of the entry loop (dead for every claim: values
reaching it are bool/null/array/object).  Go prints map keys in sorted
order; field order stands in for it here. -/
def goFmtV : Json → String
  | .null => "<nil>"
  | .bool b => if b then "true" else "false"
  | .num n => toString n
  | .str s => s
  | .arr xs => "[" ++ goFmtList xs ++ "]"
  | .obj fs => "map[" ++ goFmtFields fs ++ "]"

def goFmtList : List Json → String
  | [] => ""
  | [x] => goFmtV x
  | x :: y :: xs => goFmtV x ++ " " ++ goFmtList (y :: xs)

def goFmtFields : List (String × Json) → String
  | [] => ""
  | [p] => p.1 ++ ":" ++ goFmtV p.2
  | p :: q :: ps => p.1 ++ ":" ++ goFmtV p.2 ++ " " ++ goFmtFields (q :: ps)

end

/-- The display string assigned to `(*v)[e.Name]` by the entry loop
(part_005 lines 86-96).  The `int` and `[]byte` type-switch arms of the
source are unreachable (`encoding/json` decodes into `interface{}` only
as float64/string/bool/nil/slice/map), so a JSON number takes the
float64 arm: `strconv.FormatFloat(fv, 'f', -1, 64)`, which for an
integral value is its decimal digit string; a string is used verbatim;
everything else takes the fallback
`fmt.Sprintf("unrecognized type %v", e)`. -/
def entryDisplay (e : AlertEntry) : String :=
  match e.value with
  | .num n => toString n
  | .str s => s
  | v => "unrecognized type \x7b" ++ e.name ++ " " ++ goFmtV v ++ " " ++ goFmtV e.units ++ "\x7d"

/-- Go map assignment `m[k] = val` on an association-list model of
`map[string]string` (replaces an existing binding, else appends). -/
def alertInsert (m : List (String × String)) (k v : String) : List (String × String) :=
  if (m.lookup k).isSome then
    m.map fun p => if p.1 = k then (k, v) else p
  else
    m ++ [(k, v)]

/-- The entry loop of `DecodedAlert.UnmarshalJSON` (part_005 lines
85-100): assign the display string, then — when `Units` is a non-empty
string and the just-assigned map value is non-empty — append one space
and the units. -/
def decodedAlertFold (m : List (String × String)) (es : List AlertEntry) :
    List (String × String) :=
  es.foldl (fun m e =>
    let m1 := alertInsert m e.name (entryDisplay e)
    match e.units with
    | .str uv =>
        if ((m1.lookup e.name).getD "") ≠ "" ∧ uv ≠ "" then
          alertInsert m1 e.name (((m1.lookup e.name).getD "") ++ " " ++ uv)
        else m1
    | _ => m1) m

/-- Embedding of `DecodedAlert.UnmarshalJSON` (part_005 lines 63-102).

`data` is the raw JSON bytes handed to the method and `v` the receiver
map's current contents.  Step 1, `json.Unmarshal(data, &strvalue)`:
the bytes must parse as a JSON string (a JSON null leaves `strvalue` at
`""` with no error, per encoding/json's null rule); anything else is an
error.  An empty `strvalue` returns nil with the map untouched.
Otherwise the string's contents are themselves parsed as JSON and
decoded as `[]entry` (failure is an error), and the map is rebuilt from
scratch by the entry loop. -/
def decodedAlertUnmarshal (data : String) (v : List (String × String)) :
    Except String (List (String × String)) :=
  match jsonParse data with
  | some (.str strvalue) =>
      if strvalue = "" then .ok v
      else
        match entriesOf strvalue with
        | none => .error ("error unmarshalling grid alert " ++ strvalue)
        | some es => .ok (decodedAlertFold [] es)
  | some .null => .ok v
  | _ => .error "error unmarshalling grid alert  into string"

/-- Does a JSON value unmarshal into a Go `string` without error (i.e.
is it a JSON string, or null — which leaves the string untouched)? -/
def isStringOrNull : Json → Bool
  | .str _ => true
  | .null => true
  | _ => false

/-! ## NonIsoTime (part_005: `NonIsoTime.UnmarshalJSON`)

`UnmarshalJSON` strips every quote character and hands the result to
`time.Parse` with the fixed layout "2006-01-02 15:04:05 -0700".  The
stdlib parser for that layout is embedded below, specialised to the
layout's chunk sequence (4-digit year, literal '-', 2-digit month,
literal '-', 2-digit day, literal ' ', 1-or-2-digit hour — the "15"
chunk calls getnum in non-fixed mode — ':', 2-digit minute, ':',
2-digit second, an optional fractional-second part that time.Parse
accepts after seconds even when absent from the layout, literal ' ',
and a numeric zone "±hhmm"), followed by the stdlib's range checks.
The shape scan and the range validation are sequenced rather than
interleaved as in the stdlib; both orders produce an error on exactly
the same inputs. -/

/-- Result of a successful parse: the civil fields and the fixed zone
offset (seconds east of UTC) that `time.Parse` turns into a `time.Time`
in a fixed zone. -/
structure GoTime where
  year : Nat
  month : Nat
  day : Nat
  hour : Nat
  minute : Nat
  second : Nat
  nsec : Nat
  offsetSec : Int
deriving DecidableEq, Repr

/-- Raw fields collected by the layout scan, before range validation. -/
structure NonIsoFields where
  year : Nat
  month : Nat
  day : Nat
  hour : Nat
  minute : Nat
  second : Nat
  nsec : Nat
  zoneNeg : Bool
  zoneH : Nat
  zoneM : Nat
deriving DecidableEq, Repr

/-- stdlib `getnum` with `fixed=true`: exactly two digits. -/
def getnumFixed : List Char → Option (Nat × List Char)
  | c1 :: c2 :: rest =>
      if isDigitCh c1 && isDigitCh c2 then
        some ((c1.toNat - 48) * 10 + (c2.toNat - 48), rest)
      else none
  | _ => none

/-- stdlib `getnum` with `fixed=false`: one digit, or two when the
second character is also a digit. -/
def getnumFlex : List Char → Option (Nat × List Char)
  | [] => none
  | c1 :: rest =>
      if isDigitCh c1 then
        match rest with
        | c2 :: rest2 =>
            if isDigitCh c2 then some ((c1.toNat - 48) * 10 + (c2.toNat - 48), rest2)
            else some (c1.toNat - 48, rest)
        | [] => some (c1.toNat - 48, [])
      else none

/-- stdlib `stdLongYear`: four digit characters. -/
def getYear4 : List Char → Option (Nat × List Char)
  | a :: b :: c :: d :: rest =>
      if isDigitCh a && isDigitCh b && isDigitCh c && isDigitCh d then
        some (digitsToNat [a, b, c, d], rest)
      else none
  | _ => none

/-- A literal layout character, which must match exactly. -/
def lit (c : Char) : List Char → Option (List Char)
  | x :: rest => if x = c then some rest else none
  | [] => none

/-- stdlib fractional-second special case after the seconds chunk: a
'.' or ',' followed by at least one digit consumes the point and every
following digit; `parseNanoseconds` scales the first nine digits to
nanoseconds.  Anything else contributes no fraction. -/
def parseFracSecond : List Char → Nat × List Char
  | c :: d :: rest =>
      if (c = '.' || c = ',') && isDigitCh d then
        let ds := (d :: rest).takeWhile isDigitCh
        let ds9 := ds.take 9
        (digitsToNat ds9 * 10 ^ (9 - ds9.length), (d :: rest).dropWhile isDigitCh)
      else (0, c :: d :: rest)
  | cs => (0, cs)

/-- stdlib `stdNumTZ`: a '+' or '-' sign followed by two 2-digit
groups (offset hours and minutes). -/
def parseZoneNum : List Char → Option ((Bool × Nat × Nat) × List Char)
  | s :: rest =>
      if s = '+' ∨ s = '-' then
        match getnumFixed rest with
        | none => none
        | some (zh, r1) =>
          match getnumFixed r1 with
          | none => none
          | some (zm, r2) => some ((s = '-', zh, zm), r2)
      else none
  | [] => none

/-- The layout scan of `time.Parse` for "2006-01-02 15:04:05 -0700":
shapes only, no range validation; the whole input must be consumed. -/
def parseNonIsoShape (cs : List Char) : Option NonIsoFields := do
  let (y, r1) ← getYear4 cs
  let r2 ← lit '-' r1
  let (mo, r3) ← getnumFixed r2
  let r4 ← lit '-' r3
  let (d, r5) ← getnumFixed r4
  let r6 ← lit ' ' r5
  let (h, r7) ← getnumFlex r6
  let r8 ← lit ':' r7
  let (mi, r9) ← getnumFixed r8
  let r10 ← lit ':' r9
  let (se, r11) ← getnumFixed r10
  let fr := parseFracSecond r11
  let r12 ← lit ' ' fr.2
  let (z, r13) ← parseZoneNum r12
  if r13 = [] then
    some ⟨y, mo, d, h, mi, se, fr.1, z.1, z.2.1, z.2.2⟩
  else none

/-- Leap years per the stdlib (`isLeap`). -/
def isLeapYear (y : Nat) : Bool :=
  y % 4 = 0 && (y % 100 ≠ 0 || y % 400 = 0)

/-- Days in a month per the stdlib (`daysIn`). -/
def daysIn (m y : Nat) : Nat :=
  if m = 2 then (if isLeapYear y then 29 else 28)
  else if m = 4 ∨ m = 6 ∨ m = 9 ∨ m = 11 then 30
  else 31

/-- The stdlib's range checks on the scanned fields (month within
1..12, hour below 24, minute and second below 60, zone offset hour at
most 24 and minute at most 60 — the stdlib range test for zones uses
">" — and the day valid for the month), then assembly of the result:
the zone offset in seconds is (hh*60+mm)*60, negated for '-'. -/
def nonIsoValidate (f : NonIsoFields) : Option GoTime :=
  if f.month = 0 ∨ 12 < f.month then none
  else if 24 ≤ f.hour then none
  else if 60 ≤ f.minute then none
  else if 60 ≤ f.second then none
  else if 24 < f.zoneH then none
  else if 60 < f.zoneM then none
  else if f.day = 0 ∨ daysIn f.month f.year < f.day then none
  else
    some ⟨f.year, f.month, f.day, f.hour, f.minute, f.second, f.nsec,
      (if f.zoneNeg then -1 else 1) * (((f.zoneH : Int) * 60 + (f.zoneM : Int)) * 60)⟩

/-- `time.Parse` of the fixed layout: scan, then validate. -/
def parseNonIsoChars (cs : List Char) : Option GoTime :=
  match parseNonIsoShape cs with
  | none => none
  | some f => nonIsoValidate f

/-- `strings.Replace(s, quote, empty, -1)`: drop every quote char. -/
def stripQuotes (s : String) : List Char :=
  s.data.filter fun c => c ≠ '"'

/-- Embedding of `NonIsoTime.UnmarshalJSON` (part_005 lines 22-28):
strip all quote characters, then `time.Parse` with the fixed layout.
`none` is the error case (the receiver is only assigned on success). -/
def nonIsoTimeUnmarshal (p : String) : Option GoTime :=
  parseNonIsoChars (stripQuotes p)

/-- The strict layout "YYYY-MM-DD HH:MM:SS ±ZZZZ" as the specification
words it (used to compare the code's accepted language against the
spec's): exactly 25 characters, every component two digits (four for
the year), no fractional seconds. -/
def matchesNonIsoLayout (cs : List Char) : Bool :=
  match cs with
  | [y1, y2, y3, y4, s1, m1, m2, s2, d1, d2, s3, h1, h2, s4, n1, n2, s5, e1, e2, s6, sg,
     z1, z2, z3, z4] =>
      isDigitCh y1 && isDigitCh y2 && isDigitCh y3 && isDigitCh y4 &&
      s1 = '-' && isDigitCh m1 && isDigitCh m2 && s2 = '-' &&
      isDigitCh d1 && isDigitCh d2 && s3 = ' ' &&
      isDigitCh h1 && isDigitCh h2 && s4 = ':' &&
      isDigitCh n1 && isDigitCh n2 && s5 = ':' &&
      isDigitCh e1 && isDigitCh e2 && s6 = ' ' &&
      (sg = '+' || sg = '-') &&
      isDigitCh z1 && isDigitCh z2 && isDigitCh z3 && isDigitCh z4
  | _ => false

/-- Civil date to days since 1970-01-01 (proleptic Gregorian); all
divisions act on non-negative operands for the years in range. -/
def daysFromCivil (y : Int) (m d : Nat) : Int :=
  let y1 : Int := if m ≤ 2 then y - 1 else y
  let era : Int := (if 0 ≤ y1 then y1 else y1 - 399) / 400
  let yoe : Int := y1 - era * 400
  let mp : Int := if 2 < m then (m : Int) - 3 else (m : Int) + 9
  let doy : Int := (153 * mp + 2) / 5 + (d : Int) - 1
  let doe : Int := yoe * 365 + yoe / 4 - yoe / 100 + doy
  era * 146097 + doe - 719468

/-- The absolute instant (Unix seconds) denoted by a parsed time: civil
fields in the parsed fixed zone, minus the zone offset. -/
def goTimeUnix (t : GoTime) : Int :=
  daysFromCivil (t.year : Int) t.month t.day * 86400 +
    (t.hour : Int) * 3600 + (t.minute : Int) * 60 + (t.second : Int) - t.offsetSec

/-! ## Duration (part_005: `Duration.UnmarshalJSON` / `Duration.MarshalJSON`)

`Duration` wraps Go's `time.Duration` (int64 nanoseconds).
`UnmarshalJSON` strips every quote character and calls the stdlib
`time.ParseDuration`; `MarshalJSON` renders `time.Duration.String()`
and quotes it.  Both stdlib functions are embedded below over
`Int`/`Nat` with the stdlib's explicit uint64 overflow checks
(`1<<63 = 9223372036854775808`).  The one deviation: for a segment's
fractional part the stdlib computes
`uint64(float64(f) * (float64(unit) / scale))`; the embedding uses the
exact integer value `f * unit / scale`, which coincides with the
float64 computation whenever `scale` divides `unit` and the product
stays below 2^53 — in particular on every string `String()` can
produce (at most 9 fractional digits against the "s" unit, 6 against
"ms", 3 against "µs") — and takes the floor elsewhere. -/

/-- The ASCII digit character for d (0-9). -/
def digitChar (d : Nat) : Char :=
  Char.ofNat (48 + d)

/-- Decimal digits, least significant first (fuel-indexed so that the
recursion is structural; the fuel only needs to dominate the value). -/
def natDigitsRevAux : Nat → Nat → List Nat
  | 0, _ => []
  | _ + 1, 0 => []
  | fuel + 1, n + 1 => ((n + 1) % 10) :: natDigitsRevAux fuel ((n + 1) / 10)

/-- Decimal digits of n, least significant first. -/
def natDigitsRev (n : Nat) : List Nat :=
  natDigitsRevAux n n

/-- stdlib `fmtInt`: decimal digit characters of v ("0" for zero). -/
def fmtInt (v : Nat) : List Char :=
  if v = 0 then ['0'] else (natDigitsRev v).reverse.map digitChar

/-- The w least-significant decimal digits of v, zero-padded to
exactly width w (specification helper for `fmtFrac`). -/
def padDigits : Nat → Nat → List Char
  | 0, _ => []
  | w + 1, v => padDigits w (v / 10) ++ [digitChar (v % 10)]

/-- Fraction text produced by `fmtFrac` for value v at precision p:
empty when the low p digits are all zero, otherwise a point followed
by the low p digits with trailing zeros stripped (specification helper
proved equal to `fmtFrac`). -/
def stripFrac : Nat → Nat → List Char
  | 0, _ => []
  | p + 1, v =>
      if v % 10 = 0 then stripFrac p (v / 10)
      else '.' :: (padDigits p (v / 10) ++ [digitChar (v % 10)])

/-- stdlib `fmtFrac` loop: peel `prec` digits off v least-significant
first, printing (to the left of `acc`) once a non-zero digit has been
seen, then the decimal point if anything was printed.  Returns the
printed text and v shifted right by `prec` digits. -/
def fmtFracAux : Nat → Nat → List Char → Bool → List Char × Nat
  | 0, v, acc, printed => ((if printed then '.' :: acc else acc), v)
  | p + 1, v, acc, printed =>
      let digit := v % 10
      let printed1 := printed || decide (digit ≠ 0)
      let acc1 := if printed1 then digitChar digit :: acc else acc
      fmtFracAux p (v / 10) acc1 printed1

/-- stdlib `fmtFrac`. -/
def fmtFrac (v prec : Nat) : List Char × Nat :=
  fmtFracAux prec v [] false

/-- Unsigned core of `time.Duration.String()` for the magnitude u (the
stdlib's uint64, negation of the minimum int64 included): sub-second
values use ns/µs/ms with `fmtFrac` precision 0/3/6, larger values
print seconds with precision 9, then minutes and hours while
non-zero. -/
def durCore (u : Nat) : List Char :=
  if u < 1000000000 then
    if u = 0 then ['0', 's']
    else if u < 1000 then fmtInt u ++ ['n', 's']
    else if u < 1000000 then
      let p := fmtFrac u 3
      fmtInt p.2 ++ p.1 ++ ['µ', 's']
    else
      let p := fmtFrac u 6
      fmtInt p.2 ++ p.1 ++ ['m', 's']
  else
    let p := fmtFrac u 9
    let secPart := fmtInt (p.2 % 60) ++ p.1 ++ ['s']
    let mins := p.2 / 60
    if mins = 0 then secPart
    else
      let minPart := fmtInt (mins % 60) ++ ['m']
      let hours := mins / 60
      if hours = 0 then minPart ++ secPart
      else fmtInt hours ++ 'h' :: (minPart ++ secPart)

/-- stdlib `time.Duration.String()` (as a character list): the core of
the magnitude, with '-' prepended for negative durations. -/
def durationStr (d : Int) : List Char :=
  if d < 0 then '-' :: durCore d.natAbs else durCore d.natAbs

/-- stdlib `leadingInt`: consume leading digits into x, failing (like
the stdlib's errLeadingInt) when x would pass 1<<63/10 before a further
digit or 1<<63 after one. -/
def leadingIntAux : Nat → List Char → Option (Nat × List Char)
  | x, [] => some (x, [])
  | x, c :: rest =>
      if isDigitCh c then
        if 922337203685477580 < x then none
        else
          let x1 := x * 10 + (c.toNat - 48)
          if 9223372036854775808 < x1 then none
          else leadingIntAux x1 rest
      else some (x, c :: rest)

/-- stdlib `leadingFraction`: consume leading digits into x, scaling
`scale` by 10 per kept digit; on overflow stop accumulating (drop the
remaining digits) but keep consuming them. -/
def leadingFractionAux : Nat → Nat → Bool → List Char → Nat × Nat × List Char
  | x, scale, _, [] => (x, scale, [])
  | x, scale, overflow, c :: rest =>
      if isDigitCh c then
        if overflow then leadingFractionAux x scale overflow rest
        else if 922337203685477580 < x then leadingFractionAux x scale true rest
        else
          let y := x * 10 + (c.toNat - 48)
          if 9223372036854775808 < y then leadingFractionAux x scale true rest
          else leadingFractionAux y (scale * 10) false rest
      else (x, scale, c :: rest)

/-- Is this a character `ParseDuration` treats as part of a number
(digit or decimal point)? -/
def isDigitOrDot (c : Char) : Bool :=
  c = '.' || isDigitCh c

/-- The stdlib `unitMap`: ns, us/µs/μs, ms, s, m, h in nanoseconds. -/
def unitNs : List Char → Option Nat
  | ['n', 's'] => some 1
  | ['u', 's'] => some 1000
  | ['µ', 's'] => some 1000
  | ['μ', 's'] => some 1000
  | ['m', 's'] => some 1000000
  | ['s'] => some 1000000000
  | ['m'] => some 60000000000
  | ['h'] => some 3600000000000
  | _ => none

/-- Result of scanning a segment's optional fractional part. -/
structure DurFrac where
  f : Nat
  scale : Nat
  rest : List Char
  post : Bool
deriving Repr

/-- `(\.[0-9]*)?` of a `ParseDuration` segment.  `post` records whether
fraction digits were consumed (the stdlib compares lengths; digits are
consumed exactly when one follows the point). -/
def parseDurFrac : List Char → DurFrac
  | '.' :: r2 =>
      let t := leadingFractionAux 0 1 false r2
      ⟨t.1, t.2.1, t.2.2, match r2 with | c :: _ => isDigitCh c | [] => false⟩
  | r => ⟨0, 1, r, false⟩

/-- Unit consumption and value accumulation for one `ParseDuration`
segment: scan the unit (non-digit, non-dot characters), look it up,
apply the stdlib's overflow checks while forming d + v*unit + the
fraction contribution.  Returns the new accumulator and the rest. -/
def parseDurSeg (d v f scale : Nat) (r : List Char) : Option (Nat × List Char) :=
  let u := r.takeWhile fun c => ! isDigitOrDot c
  let r4 := r.dropWhile fun c => ! isDigitOrDot c
  if u = [] then none
  else
    match unitNs u with
    | none => none
    | some unit =>
      if 9223372036854775808 / unit < v then none
      else
        let v1 := v * unit
        if 0 < f then
          let v2 := v1 + f * unit / scale
          if 9223372036854775808 < v2 then none
          else
            let d1 := d + v2
            if 9223372036854775808 < d1 then none
            else some (d1, r4)
        else
          let d1 := d + v1
          if 9223372036854775808 < d1 then none
          else some (d1, r4)

/-- The segment loop of `ParseDuration` (fuel-indexed; the caller
passes more fuel than segments, each of which consumes at least one
character).  Each round requires a leading digit or point, consumes
`[0-9]*(\.[0-9]*)?` (requiring digits on at least one side of the
point) and a unit, and accumulates into d. -/
def parseDurLoop : Nat → Nat → List Char → Option Nat
  | _, d, [] => some d
  | 0, _, _ :: _ => none
  | fuel + 1, d, c :: cs =>
      if isDigitOrDot c then
        match leadingIntAux 0 (c :: cs) with
        | none => none
        | some (v, r1) =>
          let fr := parseDurFrac r1
          if isDigitCh c || fr.post then
            match parseDurSeg d v fr.f fr.scale fr.rest with
            | none => none
            | some (d1, r4) => parseDurLoop fuel d1 r4
          else none
      else none

/-- `time.ParseDuration` after the optional sign: the "0" special
case, the empty-string error, then the segment loop; a negative result
is negated (the stdlib's uint64 2^63 magnitude maps to the minimum
int64), a positive one must fit below 2^63. -/
def parseDurBody (neg : Bool) (cs : List Char) : Option Int :=
  if cs = ['0'] then some 0
  else if cs = [] then none
  else
    match parseDurLoop (cs.length + 1) 0 cs with
    | none => none
    | some d =>
        if neg then some (-(d : Int))
        else if 9223372036854775807 < d then none
        else some (d : Int)

/-- stdlib `time.ParseDuration` over a character list: consume an
optional leading sign, then parse the rest. -/
def parseDuration (cs : List Char) : Option Int :=
  match cs with
  | '-' :: r => parseDurBody true r
  | '+' :: r => parseDurBody false r
  | r => parseDurBody false r

/-- Embedding of `Duration.UnmarshalJSON` (part_005 lines 39-45):
strip every quote character, then `time.ParseDuration`.  `none` is the
error case. -/
def durationUnmarshal (s : String) : Option Int :=
  parseDuration (s.data.filter fun c => c ≠ '"')

/-- Embedding of `Duration.MarshalJSON` (part_005 lines 47-49):
`json.Marshal(v.String())`, i.e. the duration string in quotes (none
of its characters require JSON escaping). -/
def durationMarshal (d : Int) : String :=
  String.mk ('"' :: (durationStr d ++ ['"']))

/-! ## Claim theorems for the auth coordinator -/

/-- C10: `performLogin` returns success (non-empty token, nil error)
whenever the response carried a non-empty `token` field, even when the
unmarshal step itself reported an error; and when the call succeeded but
no token was present it returns `""` plus a non-nil error.  It never
reports success together with an empty token. -/
theorem performLogin_token_presence (respToken : String) (apiErr : Option GoError) :
    (respToken ≠ "" → performLogin respToken apiErr = (respToken, none)) ∧
    (respToken = "" → (performLogin respToken apiErr).1 = "" ∧
      (performLogin respToken apiErr).2 ≠ none) ∧
    ((performLogin respToken apiErr).2 = none → (performLogin respToken apiErr).1 ≠ "") := by
  constructor
  · intro h
    simp [performLogin, h]
  constructor
  · intro h
    subst h
    cases apiErr <;> simp [performLogin]
  · intro h
    by_cases ht : respToken = ""
    · subst ht
      cases apiErr <;> simp_all [performLogin]
    · simp [performLogin, ht]

/-- Witness for `performLogin_token_presence` at a concrete input. -/
theorem performLogin_token_presence_witness :
    ("tok" ≠ "" → performLogin "tok" (some (GoError.mk "partial unmarshal")) = ("tok", none)) ∧
    ("tok" = "" → (performLogin "tok" (some (GoError.mk "partial unmarshal"))).1 = "" ∧
      (performLogin "tok" (some (GoError.mk "partial unmarshal"))).2 ≠ none) ∧
    ((performLogin "tok" (some (GoError.mk "partial unmarshal"))).2 = none →
      (performLogin "tok" (some (GoError.mk "partial unmarshal"))).1 ≠ "") :=
  performLogin_token_presence "tok" (some (GoError.mk "partial unmarshal"))

/-- C2 counterexample: a failed `cmd_DO_LOGIN` does *not* leave the
stored token unchanged.  With previous token `"oldtok"` and a failing
login (`performLogin` returns `("", err)`), `doAuthMsg` overwrites the
stored token with `""`: the error is delivered on the reply channel, but
the token is cleared rather than kept. -/
theorem doAuthMsg_login_failure_clears_token :
    (doAuthMsg ⟨.doLogin, ""⟩ "oldtok" ("", some (GoError.mk "bad credentials"))).2
        = some (some (GoError.mk "bad credentials")) ∧
    ¬ (doAuthMsg ⟨.doLogin, ""⟩ "oldtok" ("", some (GoError.mk "bad credentials"))).1
        = "oldtok" := by
  constructor
  · rfl
  · decide

/-- C2 (amended): when a login performed by `doAuthMsg` fails (the reply
channel carries a non-nil error), the error is always delivered to the
caller on the reply channel — never swallowed — and the stored token is
set to the empty string returned by the failed `performLogin`.  For
`cmd_CHECK_LOGIN` the login only runs when the stored token was already
empty, so there the token is indeed left unchanged; for `cmd_DO_LOGIN`
any previous token is discarded and replaced by `""`. -/
theorem doAuthMsg_login_failure (msg : AuthMessage) (authToken : String)
    (api : String × Option GoError) (e : GoError)
    (hfail : (doAuthMsg msg authToken api).2 = some (some e)) :
    (doAuthMsg msg authToken api).1 = "" ∧
    (msg.action = .checkLogin → (doAuthMsg msg authToken api).1 = authToken) := by
  have hperf : ∀ t err, (performLogin t err).2 = some e → (performLogin t err).1 = "" := by
    intro t err h
    by_cases ht : t = ""
    · cases err <;> simp [performLogin, ht]
    · simp [performLogin, ht] at h
  cases msg with
  | mk action token =>
    cases action with
    | setToken => simp [doAuthMsg] at hfail
    | doLogin =>
        simp only [doAuthMsg] at hfail ⊢
        refine ⟨hperf api.1 api.2 ?_, by intro h; cases h⟩
        exact Option.some.inj hfail
    | checkLogin =>
        by_cases htok : authToken = ""
        · simp only [doAuthMsg, htok, if_pos rfl] at hfail ⊢
          have h1 : (performLogin api.1 api.2).1 = "" :=
            hperf api.1 api.2 (Option.some.inj hfail)
          exact ⟨h1, fun _ => h1⟩
        · simp only [doAuthMsg, if_neg htok] at hfail
          cases Option.some.inj hfail

/-- Witness for `doAuthMsg_login_failure` at a concrete input. -/
theorem doAuthMsg_login_failure_witness :
    (doAuthMsg ⟨.checkLogin, ""⟩ "" ("", some (GoError.mk "boom"))).1 = "" ∧
    ((AuthMessage.mk .checkLogin "").action = .checkLogin →
      (doAuthMsg ⟨.checkLogin, ""⟩ "" ("", some (GoError.mk "boom"))).1 = "") :=
  doAuthMsg_login_failure ⟨.checkLogin, ""⟩ "" ("", some (GoError.mk "boom"))
    (GoError.mk "boom") rfl

/-- C9 counterexample: strict mutation priority does not always hold.
When no mutation was pending at the first (non-blocking) select but both
a mutation sender and a token-read receiver are ready when the second,
blocking select commits, Go's uniform random case selection may service
the token read even though a mutation is available. -/
theorem authManagerStep_read_despite_mutation :
    authManagerStep false true true .tokenRead ∧ Serviced.tokenRead ≠ Serviced.mutation :=
  ⟨authManagerStep.bothRead, by decide⟩

/-- C9 (amended): the double-select protocol gives mutations priority at
the start of each iteration: a mutation pending at the first,
non-blocking select is always serviced, and a token read can only be
serviced in an iteration whose first select found no pending mutation. -/
theorem authManagerStep_priority (firstMutReady mutReady readReady : Bool) (s : Serviced)
    (hstep : authManagerStep firstMutReady mutReady readReady s) :
    (firstMutReady = true → s = .mutation) ∧
    (s = .tokenRead → firstMutReady = false) := by
  cases hstep <;> simp_all

/-- Witness for `authManagerStep_priority` at a concrete step. -/
theorem authManagerStep_priority_witness :
    ((true : Bool) = true → Serviced.mutation = .mutation) ∧
    (Serviced.mutation = .tokenRead → (true : Bool) = false) :=
  authManagerStep_priority true true true .mutation (authManagerStep.firstSelect true true)

/-! ## Claim theorems for the codec layer (DecodedAlert) -/

/-- C5 counterexample: the input `null` is valid JSON and is not a JSON
string, yet `DecodedAlert.UnmarshalJSON` returns no error on it
(`json.Unmarshal` of JSON null into a Go string is a no-op), leaving the
map untouched — contradicting "valid JSON but not a JSON string returns
a decode error". -/
theorem decodedAlert_null_no_error :
    jsonParse "null" = some Json.null ∧
    decodedAlertUnmarshal "null" [] = Except.ok [] :=
  ⟨rfl, rfl⟩

/-- C5 (amended): decoding the JSON string `""` (and likewise JSON
null, which unmarshals into a string as a no-op) succeeds and leaves
the map unchanged; every other outer shape — invalid JSON, or valid
JSON that is neither a string nor null — is a decode error; and a JSON
string whose non-empty contents do not decode as a JSON array of
entries is a decode error. -/
theorem decodedAlert_outer_behavior (v : List (String × String)) (s : String) :
    decodedAlertUnmarshal "\"\"" v = Except.ok v ∧
    decodedAlertUnmarshal "null" v = Except.ok v ∧
    (∀ j, jsonParse s = some j → isStringOrNull j = false →
      (decodedAlertUnmarshal s v).isOk = false) ∧
    (jsonParse s = none → (decodedAlertUnmarshal s v).isOk = false) ∧
    (∀ strv, jsonParse s = some (.str strv) → strv ≠ "" → entriesOf strv = none →
      (decodedAlertUnmarshal s v).isOk = false) := by
  refine ⟨rfl, rfl, ?_, ?_, ?_⟩
  · intro j hj hns
    unfold decodedAlertUnmarshal
    rw [hj]
    cases j <;> first
      | rfl
      | simp [isStringOrNull] at hns
  · intro h
    unfold decodedAlertUnmarshal
    rw [h]
    rfl
  · intro strv hj hne hent
    simp only [decodedAlertUnmarshal, hj, hent, if_neg hne]
    rfl

/-- Witness for `decodedAlert_outer_behavior` at concrete inputs. -/
theorem decodedAlert_outer_behavior_witness :
    decodedAlertUnmarshal "\"\"" [] = Except.ok [] ∧
    decodedAlertUnmarshal "null" [] = Except.ok [] ∧
    (∀ j, jsonParse "[1,2]" = some j → isStringOrNull j = false →
      (decodedAlertUnmarshal "[1,2]" []).isOk = false) ∧
    (jsonParse "[1,2]" = none → (decodedAlertUnmarshal "[1,2]" []).isOk = false) ∧
    (∀ strv, jsonParse "[1,2]" = some (.str strv) → strv ≠ "" → entriesOf strv = none →
      (decodedAlertUnmarshal "[1,2]" []).isOk = false) :=
  decodedAlert_outer_behavior [] "[1,2]"

/-- C6: an entry whose `value` is the integer `n` is displayed as the
decimal string of `n`; a non-empty string `units` (with the value's
non-empty string form) is appended after exactly one space, and absent
units leave the bare number; in particular the full unmarshal of the
doubly-encoded entry list with name PINV_a021_ov_amplitude1, value 184
and units Vrms maps that name to "184 Vrms". -/
theorem decodedAlert_numeric_units (nm : String) (n : Int) (u : String)
    (hu : u ≠ "") (hn : toString n ≠ "") :
    decodedAlertFold [] [⟨nm, .num n, .str u⟩] = [(nm, toString n ++ " " ++ u)] ∧
    decodedAlertFold [] [⟨nm, .num n, .null⟩] = [(nm, toString n)] ∧
    decodedAlertUnmarshal
        "\"[\x7b\\\"name\\\":\\\"PINV_a021_ov_amplitude1\\\",\\\"value\\\":184,\\\"units\\\":\\\"Vrms\\\"\x7d]\"" []
      = Except.ok [("PINV_a021_ov_amplitude1", "184 Vrms")] := by
  refine ⟨?_, ?_, rfl⟩
  · simp [decodedAlertFold, entryDisplay, alertInsert, hn, hu]
  · simp [decodedAlertFold, entryDisplay, alertInsert]

/-- Witness for `decodedAlert_numeric_units` at the claim's entry. -/
theorem decodedAlert_numeric_units_witness :
    decodedAlertFold [] [⟨"PINV_a021_ov_amplitude1", .num 184, .str "Vrms"⟩]
      = [("PINV_a021_ov_amplitude1", "184 Vrms")] ∧
    decodedAlertFold [] [⟨"PINV_a021_ov_amplitude1", .num 184, .null⟩]
      = [("PINV_a021_ov_amplitude1", "184")] ∧
    decodedAlertUnmarshal
        "\"[\x7b\\\"name\\\":\\\"PINV_a021_ov_amplitude1\\\",\\\"value\\\":184,\\\"units\\\":\\\"Vrms\\\"\x7d]\"" []
      = Except.ok [("PINV_a021_ov_amplitude1", "184 Vrms")] :=
  decodedAlert_numeric_units "PINV_a021_ov_amplitude1" 184 "Vrms"
    (by decide) (by decide)

/-! ## Claim theorems for the request executor -/

/-- C4: a login API call (path beginning "login/") issues its request
with no AuthCookie and its trace contains no coordinator read at all;
every other call first reads the coordinator's token and attaches
exactly that token as the AuthCookie when it is non-empty, and no
cookie when it is empty. -/
theorem doHttpRequest_cookie_discipline (api : String) (env : ReqEnv) :
    (goHasPre "login/" api = true →
      (doHttpRequest api env).2 = [.request none]) ∧
    (goHasPre "login/" api = false →
      (doHttpRequest api env).2.take 2 =
        [.tokenRead env.token1,
         .request (if env.token1 = "" then none else some env.token1)]) := by
  constructor
  · intro h
    unfold doHttpRequest
    rw [h]
    cases env.first <;> simp
  · intro h
    unfold doHttpRequest
    rw [h]
    simp only [Bool.false_eq_true, if_false]
    cases env.first with
    | err e => simp
    | resp st body =>
        dsimp only
        by_cases hst : st = 401 ∨ st = 403
        · rw [if_pos hst]
          cases env.loginErr <;> cases env.second <;> simp
        · rw [if_neg hst]
          simp

/-- Witness for `doHttpRequest_cookie_discipline` at concrete inputs. -/
theorem doHttpRequest_cookie_discipline_witness :
    (goHasPre "login/" "login/Basic" = true →
      (doHttpRequest "login/Basic"
        ⟨"tok", .resp 200 "\x7b\x7d", none, "", .resp 200 ""⟩).2 = [.request none]) ∧
    (goHasPre "login/" "login/Basic" = false →
      (doHttpRequest "login/Basic"
        ⟨"tok", .resp 200 "\x7b\x7d", none, "", .resp 200 ""⟩).2.take 2 =
        [.tokenRead "tok", .request (if "tok" = "" then none else some "tok")]) :=
  doHttpRequest_cookie_discipline "login/Basic" ⟨"tok", .resp 200 "\x7b\x7d", none, "", .resp 200 ""⟩

/-- C1: when a non-login call's first attempt completes with status 401
or 403, exactly one DoLogin is performed; if it fails, its error is
returned after the single original request; if it succeeds, exactly one
retried request is issued carrying the freshly read token as the
AuthCookie; and if that single retried request also completes with
401/403 the result is an AuthFailure error (no further retry). -/
theorem doHttpRequest_reauth_once (api : String) (env : ReqEnv) (st : Nat) (body : String)
    (hapi : goHasPre "login/" api = false)
    (hfirst : env.first = .resp st body)
    (hst : st = 401 ∨ st = 403) :
    loginsOf (doHttpRequest api env).2 = 1 ∧
    (∀ e, env.loginErr = some e →
      (doHttpRequest api env).1 = .error (.goErr e) ∧
      requestsOf (doHttpRequest api env).2 =
        [if env.token1 = "" then none else some env.token1]) ∧
    (env.loginErr = none →
      requestsOf (doHttpRequest api env).2 =
        [if env.token1 = "" then none else some env.token1, some env.token2]) ∧
    (∀ st2 body2, env.loginErr = none → env.second = .resp st2 body2 →
      (st2 = 401 ∨ st2 = 403) →
      (doHttpRequest api env).1 =
        .error (.authFailure ("api/" ++ api) (parseErrorResponse body2).1
          (parseErrorResponse body2).2)) := by
  unfold doHttpRequest
  rw [hapi, hfirst]
  simp only [Bool.false_eq_true, if_false]
  rw [if_pos hst]
  cases hl : env.loginErr with
  | some e =>
      refine ⟨by simp [loginsOf], ?_, ?_, ?_⟩
      · intro e' he'
        cases he'
        exact ⟨rfl, by simp [requestsOf]⟩
      · intro hnone
        cases hnone
      · intro st2 body2 hnone
        cases hnone
  | none =>
      cases hs : env.second with
      | err e2 =>
          refine ⟨by simp [loginsOf], ?_, by simp [requestsOf], ?_⟩
          · intro e' he'
            cases he'
          · intro st2 body2 _ hresp
            cases hresp
      | resp st2 body2 =>
          refine ⟨by simp [loginsOf], ?_, by simp [requestsOf], ?_⟩
          · intro e' he'
            cases he'
          · intro st2' body2' _ hresp hst2
            cases hresp
            dsimp only
            unfold finishResponse
            rw [if_pos hst2]

/-- Witness for `doHttpRequest_reauth_once` at a concrete environment:
first attempt 401, successful re-login to token "t2", second attempt
403 with an error body. -/
theorem doHttpRequest_reauth_once_witness :
    loginsOf (doHttpRequest "status"
      ⟨"t1", .resp 401 "", none, "t2", .resp 403 "\x7b\"error\":\"login required\"\x7d"⟩).2 = 1 ∧
    (∀ e, (none : Option GoError) = some e →
      (doHttpRequest "status"
        ⟨"t1", .resp 401 "", none, "t2", .resp 403 "\x7b\"error\":\"login required\"\x7d"⟩).1
        = .error (.goErr e) ∧
      requestsOf (doHttpRequest "status"
        ⟨"t1", .resp 401 "", none, "t2", .resp 403 "\x7b\"error\":\"login required\"\x7d"⟩).2 =
        [if "t1" = "" then none else some "t1"]) ∧
    ((none : Option GoError) = none →
      requestsOf (doHttpRequest "status"
        ⟨"t1", .resp 401 "", none, "t2", .resp 403 "\x7b\"error\":\"login required\"\x7d"⟩).2 =
        [if "t1" = "" then none else some "t1", some "t2"]) ∧
    (∀ st2 body2, (none : Option GoError) = none →
      (HttpOutcome.resp 403 "\x7b\"error\":\"login required\"\x7d") = .resp st2 body2 →
      (st2 = 401 ∨ st2 = 403) →
      (doHttpRequest "status"
        ⟨"t1", .resp 401 "", none, "t2", .resp 403 "\x7b\"error\":\"login required\"\x7d"⟩).1 =
        .error (.authFailure ("api/" ++ "status") (parseErrorResponse body2).1
          (parseErrorResponse body2).2)) :=
  doHttpRequest_reauth_once "status"
    ⟨"t1", .resp 401 "", none, "t2", .resp 403 "\x7b\"error\":\"login required\"\x7d"⟩
    401 "" (by decide) rfl (Or.inl rfl)

/-! ## Claim theorems for the httpDo retry loop -/

/-- Shape of every completed `httpDoLoop` run: the trace starts with an
attempt, ends with the attempt that produced the returned result, and a
returned transport (`net.Error`) result means the elapsed time had
reached or passed the configured timeout when the loop gave up. -/
theorem httpDoLoop_result_shape (cfg : RetryConfig) (attempts : List HttpAttempt) :
    ∀ (el : Nat) (r : AttemptResult) (t : Nat) (tr : List HttpDoEvent),
      httpDoLoop cfg el attempts = some (r, t, tr) →
      (∃ r1, tr.head? = some (.attempt r1)) ∧
      tr.getLast? = some (.attempt r) ∧
      (∀ e, r = .netErr e → cfg.timeout ≤ (t : Int)) := by
  induction attempts with
  | nil =>
      intro el r t tr h
      simp [httpDoLoop] at h
  | cons a rest ih =>
      intro el r t tr h
      simp only [httpDoLoop] at h
      cases ha : a.res with
      | netErr e =>
          rw [ha] at h
          dsimp only at h
          by_cases htm : cfg.timeout ≤ ((el + a.dur : Nat) : Int)
          · rw [if_pos htm] at h
            injection h with h'
            cases h'
            refine ⟨⟨_, rfl⟩, rfl, fun e' _ => htm⟩
          · rw [if_neg htm] at h
            cases hrec : httpDoLoop cfg (el + a.dur + (cfg.interval - (a.dur : Int)).toNat) rest with
            | none => rw [hrec] at h; cases h
            | some p =>
                rw [hrec] at h
                injection h with h'
                cases h'
                obtain ⟨⟨r1, hhead⟩, hlast, htime⟩ :=
                  ih (el + a.dur + (cfg.interval - (a.dur : Int)).toNat) p.1 p.2.1 p.2.2 hrec
                refine ⟨⟨.netErr e, rfl⟩, ?_, htime⟩
                cases htr : p.2.2 with
                | nil => rw [htr] at hhead; cases hhead
                | cons x xs =>
                    rw [List.getLast?_cons_cons, List.getLast?_cons_cons]
                    exact htr ▸ hlast
      | otherErr e =>
          rw [ha] at h
          dsimp only at h
          injection h with h'
          cases h'
          exact ⟨⟨_, rfl⟩, rfl, fun e' he' => by cases he'⟩
      | resp st bd =>
          rw [ha] at h
          dsimp only at h
          injection h with h'
          cases h'
          exact ⟨⟨_, rfl⟩, rfl, fun e' he' => by cases he'⟩

/-- C3 counterexample: with timeout 2 > interval 1 > 0, a first attempt
that fails with a transport error after consuming 2 ns of wall-clock
time produces *no* retry: the elapsed time has already reached the
timeout (stopping at equality, i.e. "reaches", not only "exceeds"), so
the loop returns after the single attempt. -/
theorem httpDo_no_retry_when_attempt_reaches_timeout :
    (1 : Int) < 2 ∧ (0 : Int) < 1 ∧
    httpDo ⟨1, 2⟩ [⟨.netErr (GoError.mk "connection refused"), 2⟩] =
      some (.netErr (GoError.mk "connection refused"), 2,
        [.attempt (.netErr (GoError.mk "connection refused"))]) :=
  ⟨by decide, by decide, rfl⟩

/-- C3 (amended): transport-error retry behaviour of `httpDo`.  A first
attempt failing with a transport error retries (a sleep followed by a
further attempt appears in the trace) provided the failed attempt
completed in strictly less than the configured timeout — in particular
whenever timeout > interval > 0 and the attempt was quick — and the
sleep before the retry is the configured interval minus the time spent
in the failed attempt, floored at zero; a transport error is returned
only once elapsed time has reached or exceeded the timeout, and it is
the error of the last attempt made; a completed HTTP response — whatever
its status code — never triggers the retry loop; and a timeout of zero
or less disables retry entirely. -/
theorem httpDo_transport_retry (cfg : RetryConfig) (e : GoError) (a : HttpAttempt)
    (rest : List HttpAttempt) (r : AttemptResult) (t : Nat) (tr : List HttpDoEvent) :
    (a.res = .netErr e → (a.dur : Int) < cfg.timeout →
      httpDo cfg (a :: rest) = some (r, t, tr) →
      ∃ tr', tr = .attempt (.netErr e) ::
          .sleep (cfg.interval - (a.dur : Int)).toNat :: tr' ∧
        ∃ r1, tr'.head? = some (.attempt r1)) ∧
    (httpDo cfg (a :: rest) = some (r, t, tr) →
      (∀ e', r = .netErr e' → cfg.timeout ≤ (t : Int)) ∧
      tr.getLast? = some (.attempt r)) ∧
    (∀ st bd d rest', httpDo cfg (⟨.resp st bd, d⟩ :: rest') =
      some (.resp st bd, d, [.attempt (.resp st bd)])) ∧
    (cfg.timeout ≤ 0 → a.res = .netErr e →
      httpDo cfg (a :: rest) = some (.netErr e, a.dur, [.attempt (.netErr e)])) := by
  refine ⟨?_, ?_, ?_, ?_⟩
  · intro ha hlt h
    unfold httpDo at h
    simp only [httpDoLoop] at h
    rw [ha] at h
    dsimp only at h
    have hnow : ¬ cfg.timeout ≤ ((0 + a.dur : Nat) : Int) := by
      simp only [Nat.zero_add]
      omega
    rw [if_neg hnow] at h
    cases hrec : httpDoLoop cfg (0 + a.dur + (cfg.interval - (a.dur : Int)).toNat) rest with
    | none => rw [hrec] at h; cases h
    | some p =>
        rw [hrec] at h
        injection h with h'
        cases h'
        obtain ⟨⟨r1, hhead⟩, _, _⟩ :=
          httpDoLoop_result_shape cfg rest
            (0 + a.dur + (cfg.interval - (a.dur : Int)).toNat) p.1 p.2.1 p.2.2 hrec
        exact ⟨p.2.2, rfl, r1, hhead⟩
  · intro h
    obtain ⟨_, hlast, htime⟩ := httpDoLoop_result_shape cfg (a :: rest) 0 r t tr h
    exact ⟨htime, hlast⟩
  · intro st bd d rest'
    unfold httpDo
    simp [httpDoLoop]
  · intro htm ha
    unfold httpDo
    simp only [httpDoLoop]
    rw [ha]
    dsimp only
    rw [if_pos (by simp only [Nat.zero_add]; omega)]
    simp

/-- Witness for `httpDo_transport_retry` at a concrete timing trace:
interval 5, timeout 100, a transport failure taking 1 ns followed by a
successful response. -/
theorem httpDo_transport_retry_witness :
    (HttpAttempt.mk (.netErr (GoError.mk "refused")) 1).res = .netErr (GoError.mk "refused") ∧
    (((HttpAttempt.mk (.netErr (GoError.mk "refused")) 1).dur : Int) <
      (RetryConfig.mk 5 100).timeout) ∧
    httpDo ⟨5, 100⟩ [⟨.netErr (GoError.mk "refused"), 1⟩, ⟨.resp 200 "", 1⟩] =
      some (.resp 200 "", 6,
        [.attempt (.netErr (GoError.mk "refused")), .sleep 4, .attempt (.resp 200 "")]) ∧
    (∃ tr', [HttpDoEvent.attempt (.netErr (GoError.mk "refused")), .sleep 4,
        .attempt (.resp 200 "")] =
        .attempt (.netErr (GoError.mk "refused")) ::
          .sleep ((RetryConfig.mk 5 100).interval -
            (((HttpAttempt.mk (.netErr (GoError.mk "refused")) 1).dur : Nat) : Int)).toNat ::
          tr' ∧
        ∃ r1, tr'.head? = some (.attempt r1)) := by
  refine ⟨rfl, by decide, rfl, ?_⟩
  exact (httpDo_transport_retry ⟨5, 100⟩ (GoError.mk "refused")
      ⟨.netErr (GoError.mk "refused"), 1⟩ [⟨.resp 200 "", 1⟩]
      (.resp 200 "") 6
      [.attempt (.netErr (GoError.mk "refused")), .sleep 4, .attempt (.resp 200 "")]).1
    rfl (by decide) rfl

/-! ## Claim theorems for NonIsoTime -/

/-- C8 counterexample: the parser is more lenient than the fixed
layout.  "2023-01-02 3:04:05 -0700" (single-digit hour) and
"2023-01-02 03:04:05.5 -0700" (fractional seconds) do not match the
layout "YYYY-MM-DD HH:MM:SS ±ZZZZ", yet both parse successfully — the
"15" hour chunk accepts one or two digits and time.Parse accepts
fractional seconds after the seconds chunk. -/
theorem nonIsoTime_lenient_layouts :
    (matchesNonIsoLayout (stripQuotes "\"2023-01-02 3:04:05 -0700\"") = false ∧
      nonIsoTimeUnmarshal "\"2023-01-02 3:04:05 -0700\"" =
        some ⟨2023, 1, 2, 3, 4, 5, 0, -25200⟩) ∧
    (matchesNonIsoLayout (stripQuotes "\"2023-01-02 03:04:05.5 -0700\"") = false ∧
      nonIsoTimeUnmarshal "\"2023-01-02 03:04:05.5 -0700\"" =
        some ⟨2023, 1, 2, 3, 4, 5, 500000000, -25200⟩) :=
  ⟨⟨rfl, rfl⟩, ⟨rfl, rfl⟩⟩

/-- C8 (amended): the quoted input "2023-01-02 03:04:05 -0700" parses
to exactly the civil time 2023-01-02 03:04:05 at fixed offset -07:00
(-25200 s), whose absolute instant is Unix second 1672653845; and
every input whose quote-stripped form fails the layout scan — the
fixed layout relaxed only by time.Parse's leniencies, namely a one- or
two-digit hour and optional fractional seconds — is a parse error (a
scan-conforming input can still fail the stdlib's range checks, e.g.
month 13). -/
theorem nonIsoTime_parse_behavior (s : String) :
    nonIsoTimeUnmarshal "\"2023-01-02 03:04:05 -0700\"" =
      some ⟨2023, 1, 2, 3, 4, 5, 0, -25200⟩ ∧
    goTimeUnix ⟨2023, 1, 2, 3, 4, 5, 0, -25200⟩ = 1672653845 ∧
    (parseNonIsoShape (stripQuotes s) = none → nonIsoTimeUnmarshal s = none) := by
  refine ⟨rfl, rfl, ?_⟩
  intro h
  unfold nonIsoTimeUnmarshal parseNonIsoChars
  rw [h]

/-- Witness for `nonIsoTime_parse_behavior` at a concrete
non-conforming input. -/
theorem nonIsoTime_parse_behavior_witness :
    nonIsoTimeUnmarshal "\"2023-01-02 03:04:05 -0700\"" =
      some ⟨2023, 1, 2, 3, 4, 5, 0, -25200⟩ ∧
    goTimeUnix ⟨2023, 1, 2, 3, 4, 5, 0, -25200⟩ = 1672653845 ∧
    (parseNonIsoShape (stripQuotes "2023-01-02T03:04:05Z") = none →
      nonIsoTimeUnmarshal "2023-01-02T03:04:05Z" = none) :=
  nonIsoTime_parse_behavior "2023-01-02T03:04:05Z"

/-! ## Helper lemmas for the Duration round-trip -/

theorem digitChar_isDigit {d : Nat} (h : d < 10) : isDigitCh (digitChar d) = true := by
  interval_cases d <;> decide

theorem digitChar_toNat {d : Nat} (h : d < 10) : (digitChar d).toNat - 48 = d := by
  interval_cases d <;> decide

theorem isDigitCh_bounds {c : Char} (h : isDigitCh c = true) :
    48 ≤ c.toNat ∧ c.toNat ≤ 57 := by
  simp only [isDigitCh, Bool.and_eq_true, decide_eq_true_eq] at h
  obtain ⟨h1, h2⟩ := h
  rw [Char.le_def] at h1 h2
  rw [UInt32.le_def] at h1 h2
  exact ⟨h1, h2⟩

theorem digitsToNat_from (ds : List Char) :
    ∀ x, List.foldl (fun a c => a * 10 + (c.toNat - 48)) x ds
      = x * 10 ^ ds.length + digitsToNat ds := by
  induction ds with
  | nil => intro x; simp [digitsToNat]
  | cons c ds ih =>
      intro x
      have hd : digitsToNat (c :: ds) = List.foldl (fun a c => a * 10 + (c.toNat - 48))
          (c.toNat - 48) ds := by
        simp [digitsToNat]
      rw [hd, ih (c.toNat - 48)]
      show List.foldl _ (x * 10 + (c.toNat - 48)) ds = _
      rw [ih (x * 10 + (c.toNat - 48))]
      simp [List.length_cons, pow_succ]
      ring

theorem digitsToNat_cons (c : Char) (ds : List Char) :
    digitsToNat (c :: ds) = (c.toNat - 48) * 10 ^ ds.length + digitsToNat ds := by
  have hd : digitsToNat (c :: ds) = List.foldl (fun a c => a * 10 + (c.toNat - 48))
      (c.toNat - 48) ds := by
    simp [digitsToNat]
  rw [hd, digitsToNat_from ds (c.toNat - 48)]

theorem digitsToNat_append (xs ys : List Char) :
    digitsToNat (xs ++ ys) = digitsToNat xs * 10 ^ ys.length + digitsToNat ys := by
  show List.foldl _ 0 (xs ++ ys) = _
  rw [List.foldl_append]
  exact digitsToNat_from ys (digitsToNat xs)

theorem digitsToNat_lt (ds : List Char) (h : ∀ c ∈ ds, isDigitCh c = true) :
    digitsToNat ds < 10 ^ ds.length := by
  induction ds with
  | nil => simp [digitsToNat]
  | cons c ds ih =>
      rw [digitsToNat_cons]
      have hc : c.toNat - 48 ≤ 9 := by
        have := (isDigitCh_bounds (h c (List.mem_cons_self c ds))).2
        omega
      have hds := ih fun x hx => h x (List.mem_cons_of_mem c hx)
      have : (c.toNat - 48) * 10 ^ ds.length + digitsToNat ds
          < (c.toNat - 48) * 10 ^ ds.length + 10 ^ ds.length := by omega
      calc (c.toNat - 48) * 10 ^ ds.length + digitsToNat ds
          < (c.toNat - 48 + 1) * 10 ^ ds.length := by rw [Nat.add_mul, one_mul]; omega
        _ ≤ 10 * 10 ^ ds.length := Nat.mul_le_mul_right _ (by omega)
        _ = 10 ^ (ds.length + 1) := by rw [pow_succ]; ring
        _ = 10 ^ (c :: ds).length := by simp

theorem padDigits_length (w v : Nat) : (padDigits w v).length = w := by
  induction w generalizing v with
  | zero => rfl
  | succ w ih => simp [padDigits, ih]

theorem padDigits_digits (w v : Nat) : ∀ c ∈ padDigits w v, isDigitCh c = true := by
  induction w generalizing v with
  | zero => simp [padDigits]
  | succ w ih =>
      intro c hc
      simp only [padDigits, List.mem_append, List.mem_singleton] at hc
      rcases hc with hc | hc
      · exact ih (v / 10) c hc
      · rw [hc]; exact digitChar_isDigit (Nat.mod_lt v (by omega))

theorem padDigits_val (w v : Nat) : digitsToNat (padDigits w v) = v % 10 ^ w := by
  induction w generalizing v with
  | zero => simp [padDigits, digitsToNat, Nat.mod_one]
  | succ w ih =>
      show digitsToNat (padDigits w (v / 10) ++ [digitChar (v % 10)]) = _
      rw [digitsToNat_append, ih (v / 10)]
      have h1 : digitsToNat [digitChar (v % 10)] = v % 10 := by
        rw [show [digitChar (v % 10)] = digitChar (v % 10) :: [] from rfl, digitsToNat_cons]
        simp [digitsToNat, digitChar_toNat (Nat.mod_lt v (by omega))]
      rw [h1]
      simp only [List.length_singleton, pow_one]
      have : v % (10 ^ (w + 1)) = v % (10 * 10 ^ w) := by ring_nf
      rw [this, Nat.mod_mul]
      ring

theorem natDigitsRevAux_irrel : ∀ f1 f2 n : Nat, n ≤ f1 → n ≤ f2 →
    natDigitsRevAux f1 n = natDigitsRevAux f2 n := by
  intro f1
  induction f1 with
  | zero =>
      intro f2 n h1 h2
      have hn : n = 0 := by omega
      subst hn
      cases f2 <;> rfl
  | succ g1 ih =>
      intro f2 n h1 h2
      match n, f2 with
      | 0, f2 => cases f2 <;> rfl
      | n + 1, 0 => omega
      | n + 1, g2 + 1 =>
          show ((n + 1) % 10) :: natDigitsRevAux g1 ((n + 1) / 10) = _
          have hle : (n + 1) / 10 ≤ n := by omega
          rw [ih g2 ((n + 1) / 10) (by omega) (by omega)]
          rfl

theorem natDigitsRev_succ (n : Nat) :
    natDigitsRev (n + 1) = ((n + 1) % 10) :: natDigitsRev ((n + 1) / 10) := by
  show natDigitsRevAux (n + 1) (n + 1) = ((n + 1) % 10) :: natDigitsRevAux ((n + 1) / 10) ((n + 1) / 10)
  show ((n + 1) % 10) :: natDigitsRevAux n ((n + 1) / 10) = _
  have hle : (n + 1) / 10 ≤ n := by omega
  rw [natDigitsRevAux_irrel n ((n + 1) / 10) ((n + 1) / 10) hle (Nat.le_refl _)]

theorem natDigitsRev_lt : ∀ n d, d ∈ natDigitsRev n → d < 10 := by
  intro n
  induction n using Nat.strong_induction_on with
  | _ n ih =>
      match n with
      | 0 => intro d hd; simp [natDigitsRev, natDigitsRevAux] at hd
      | m + 1 =>
          intro d hd
          rw [natDigitsRev_succ] at hd
          rcases List.mem_cons.mp hd with h | h
          · rw [h]; exact Nat.mod_lt _ (by omega)
          · exact ih ((m + 1) / 10) (Nat.div_lt_self (Nat.succ_pos m) (by omega)) d h

theorem natDigitsRev_val : ∀ n, digitsToNat ((natDigitsRev n).reverse.map digitChar) = n := by
  intro n
  induction n using Nat.strong_induction_on with
  | _ n ih =>
      match n with
      | 0 => simp [natDigitsRev, natDigitsRevAux, digitsToNat]
      | m + 1 =>
          rw [natDigitsRev_succ]
          simp only [List.reverse_cons, List.map_append, List.map_cons, List.map_nil]
          rw [digitsToNat_append]
          have h1 : digitsToNat [digitChar ((m + 1) % 10)] = (m + 1) % 10 := by
            rw [show [digitChar ((m + 1) % 10)] = digitChar ((m + 1) % 10) :: [] from rfl,
              digitsToNat_cons]
            simp [digitsToNat, digitChar_toNat (Nat.mod_lt (m + 1) (by omega))]
          rw [h1, ih ((m + 1) / 10) (Nat.div_lt_self (Nat.succ_pos m) (by omega))]
          simp only [List.length_singleton, pow_one]
          omega

theorem fmtInt_val (n : Nat) : digitsToNat (fmtInt n) = n := by
  unfold fmtInt
  by_cases h : n = 0
  · subst h; decide
  · rw [if_neg h]; exact natDigitsRev_val n

theorem fmtInt_digits (n : Nat) : ∀ c ∈ fmtInt n, isDigitCh c = true := by
  unfold fmtInt
  by_cases h : n = 0
  · subst h; intro c hc; simp at hc; rw [hc]; decide
  · rw [if_neg h]
    intro c hc
    rcases List.mem_map.mp hc with ⟨d, hd, hdc⟩
    rw [← hdc]
    exact digitChar_isDigit (natDigitsRev_lt n d (List.mem_reverse.mp hd))

theorem fmtInt_ne_nil (n : Nat) : fmtInt n ≠ [] := by
  unfold fmtInt
  by_cases h : n = 0
  · subst h; simp
  · rw [if_neg h]
    match n, h with
    | m + 1, _ =>
        rw [natDigitsRev_succ]
        simp

theorem fmtFracAux_printed (p : Nat) :
    ∀ v acc, fmtFracAux p v acc true = ('.' :: (padDigits p v ++ acc), v / 10 ^ p) := by
  induction p with
  | zero => intro v acc; simp [fmtFracAux, padDigits]
  | succ p ih =>
      intro v acc
      show fmtFracAux p (v / 10) _ _ = _
      simp only [Bool.true_or, if_true]
      rw [ih (v / 10) (digitChar (v % 10) :: acc)]
      rw [Nat.div_div_eq_div_mul]
      simp [padDigits, List.append_assoc, pow_succ, Nat.mul_comm]

theorem fmtFracAux_spec (p : Nat) :
    ∀ v acc, fmtFracAux p v acc false = (stripFrac p v ++ acc, v / 10 ^ p) := by
  induction p with
  | zero => intro v acc; simp [fmtFracAux, stripFrac]
  | succ p ih =>
      intro v acc
      show fmtFracAux p (v / 10) _ _ = _
      simp only [Bool.false_or]
      by_cases hz : v % 10 = 0
      · rw [hz]
        norm_num
        rw [ih (v / 10) acc, Nat.div_div_eq_div_mul]
        simp [stripFrac, hz, pow_succ, Nat.mul_comm]
      · rw [decide_eq_true hz]
        simp only [if_true]
        rw [fmtFracAux_printed p (v / 10) (digitChar (v % 10) :: acc)]
        rw [Nat.div_div_eq_div_mul]
        simp [stripFrac, hz, List.append_assoc, pow_succ, Nat.mul_comm]

theorem fmtFrac_eq (v p : Nat) : fmtFrac v p = (stripFrac p v, v / 10 ^ p) := by
  unfold fmtFrac
  rw [fmtFracAux_spec p v []]
  simp

theorem stripFrac_elim (p : Nat) : ∀ v,
    (v % 10 ^ p = 0 ∧ stripFrac p v = []) ∨
    (∃ D, stripFrac p v = '.' :: D ∧ (∀ c ∈ D, isDigitCh c = true) ∧ D ≠ [] ∧
      D.length ≤ p ∧ digitsToNat D * 10 ^ (p - D.length) = v % 10 ^ p ∧
      0 < digitsToNat D) := by
  induction p with
  | zero => intro v; left; simp [stripFrac, Nat.mod_one]
  | succ p ih =>
      intro v
      have hsplit : v % 10 ^ (p + 1) = (v / 10 % 10 ^ p) * 10 + v % 10 := by
        have h1 : v % 10 ^ (p + 1) = v % (10 * 10 ^ p) := by ring_nf
        rw [h1, Nat.mod_mul]
        ring
      by_cases hz : v % 10 = 0
      · rcases ih (v / 10) with ⟨h0, hs⟩ | ⟨D, hD, hdig, hne, hlen, hval, hpos⟩
        · left
          constructor
          · omega
          · simp [stripFrac, hz, hs]
        · right
          refine ⟨D, ?_, hdig, hne, by omega, ?_, hpos⟩
          · simp [stripFrac, hz, hD]
          · have hle : D.length ≤ p := hlen
            have : p + 1 - D.length = (p - D.length) + 1 := by omega
            rw [this, pow_succ, ← Nat.mul_assoc, hval]
            omega
      · right
        refine ⟨padDigits p (v / 10) ++ [digitChar (v % 10)], ?_, ?_, by simp, ?_, ?_, ?_⟩
        · simp [stripFrac, hz]
        · intro c hc
          rcases List.mem_append.mp hc with h | h
          · exact padDigits_digits p (v / 10) c h
          · rw [List.mem_singleton.mp h]
            exact digitChar_isDigit (Nat.mod_lt v (by omega))
        · simp [padDigits_length]
        · rw [digitsToNat_append, padDigits_val]
          have h1 : digitsToNat [digitChar (v % 10)] = v % 10 := by
            rw [show [digitChar (v % 10)] = digitChar (v % 10) :: [] from rfl, digitsToNat_cons]
            simp [digitsToNat, digitChar_toNat (Nat.mod_lt v (by omega))]
          rw [h1]
          have hlen : (padDigits p (v / 10) ++ [digitChar (v % 10)]).length = p + 1 := by
            simp [padDigits_length]
          rw [hlen]
          simp [hsplit]
        · rw [digitsToNat_append]
          have h1 : digitsToNat [digitChar (v % 10)] = v % 10 := by
            rw [show [digitChar (v % 10)] = digitChar (v % 10) :: [] from rfl, digitsToNat_cons]
            simp [digitsToNat, digitChar_toNat (Nat.mod_lt v (by omega))]
          rw [h1]
          omega

theorem leadingIntAux_spec (ds : List Char) :
    ∀ x rest, (∀ c ∈ ds, isDigitCh c = true) →
      (∀ c, rest.head? = some c → isDigitCh c = false) →
      x * 10 ^ ds.length + digitsToNat ds ≤ 9223372036854775808 →
      leadingIntAux x (ds ++ rest) = some (x * 10 ^ ds.length + digitsToNat ds, rest) := by
  induction ds with
  | nil =>
      intro x rest _ hrest _
      match rest with
      | [] => simp [leadingIntAux, digitsToNat]
      | c :: r =>
          have hc := hrest c rfl
          simp [leadingIntAux, hc, digitsToNat]
  | cons c ds ih =>
      intro x rest hdig hrest hbound
      have hc : isDigitCh c = true := hdig c (List.mem_cons_self c ds)
      have hd9 : c.toNat - 48 ≤ 9 := by
        have := (isDigitCh_bounds hc).2
        omega
      have hbound' : x * (10 ^ ds.length * 10) +
          ((c.toNat - 48) * 10 ^ ds.length + digitsToNat ds) ≤ 9223372036854775808 := by
        rw [digitsToNat_cons] at hbound
        simp only [List.length_cons, pow_succ] at hbound
        omega
      have he : (x * 10 + (c.toNat - 48)) * 10 ^ ds.length
          = x * (10 ^ ds.length * 10) + (c.toNat - 48) * 10 ^ ds.length := by ring
      have hx10 : (x * 10 + (c.toNat - 48)) * 10 ^ ds.length + digitsToNat ds
          ≤ 9223372036854775808 := by omega
      have hone : 1 ≤ 10 ^ ds.length := Nat.one_le_pow _ _ (by omega)
      have hx10le : x * 10 ≤ x * (10 ^ ds.length * 10) := by
        have h1 : 1 * 10 ≤ 10 ^ ds.length * 10 := Nat.mul_le_mul_right 10 hone
        have := Nat.mul_le_mul_left x h1
        simpa using this
      have hxcap : ¬ 922337203685477580 < x := by omega
      have hx1cap : ¬ 9223372036854775808 < x * 10 + (c.toNat - 48) := by
        have h2 : (x * 10 + (c.toNat - 48)) * 1 ≤ (x * 10 + (c.toNat - 48)) * 10 ^ ds.length :=
          Nat.mul_le_mul_left _ hone
        omega
      show leadingIntAux x (c :: (ds ++ rest)) = _
      rw [leadingIntAux, hc]
      simp only [if_true, if_neg hxcap]
      rw [if_neg hx1cap]
      rw [ih (x * 10 + (c.toNat - 48)) rest
        (fun d hd => hdig d (List.mem_cons_of_mem c hd)) hrest hx10]
      have hval : (x * 10 + (c.toNat - 48)) * 10 ^ ds.length + digitsToNat ds
          = x * 10 ^ (c :: ds).length + digitsToNat (c :: ds) := by
        rw [digitsToNat_cons]
        simp only [List.length_cons, pow_succ]
        ring
      rw [hval]

theorem leadingFractionAux_spec (ds : List Char) :
    ∀ x sc rest, (∀ c ∈ ds, isDigitCh c = true) →
      (∀ c, rest.head? = some c → isDigitCh c = false) →
      x * 10 ^ ds.length + digitsToNat ds ≤ 922337203685477580 →
      leadingFractionAux x sc false (ds ++ rest)
        = (x * 10 ^ ds.length + digitsToNat ds, sc * 10 ^ ds.length, rest) := by
  induction ds with
  | nil =>
      intro x sc rest _ hrest _
      match rest with
      | [] => simp [leadingFractionAux, digitsToNat]
      | c :: r =>
          have hc := hrest c rfl
          simp [leadingFractionAux, hc, digitsToNat]
  | cons c ds ih =>
      intro x sc rest hdig hrest hbound
      have hc : isDigitCh c = true := hdig c (List.mem_cons_self c ds)
      have hd9 : c.toNat - 48 ≤ 9 := by
        have := (isDigitCh_bounds hc).2
        omega
      have hbound' : x * (10 ^ ds.length * 10) +
          ((c.toNat - 48) * 10 ^ ds.length + digitsToNat ds) ≤ 922337203685477580 := by
        rw [digitsToNat_cons] at hbound
        simp only [List.length_cons, pow_succ] at hbound
        omega
      have he : (x * 10 + (c.toNat - 48)) * 10 ^ ds.length
          = x * (10 ^ ds.length * 10) + (c.toNat - 48) * 10 ^ ds.length := by ring
      have hx10 : (x * 10 + (c.toNat - 48)) * 10 ^ ds.length + digitsToNat ds
          ≤ 922337203685477580 := by omega
      have hone : 1 ≤ 10 ^ ds.length := Nat.one_le_pow _ _ (by omega)
      have hxle : x * 1 ≤ x * (10 ^ ds.length * 10) :=
        Nat.mul_le_mul_left x (by omega)
      have hxcap : ¬ 922337203685477580 < x := by omega
      have hycap : ¬ 9223372036854775808 < x * 10 + (c.toNat - 48) := by
        have h2 : (x * 10 + (c.toNat - 48)) * 1 ≤ (x * 10 + (c.toNat - 48)) * 10 ^ ds.length :=
          Nat.mul_le_mul_left _ hone
        omega
      show leadingFractionAux x sc false (c :: (ds ++ rest)) = _
      rw [leadingFractionAux, hc]
      simp only [if_true, Bool.false_eq_true, if_false, if_neg hxcap]
      rw [if_neg hycap]
      rw [ih (x * 10 + (c.toNat - 48)) (sc * 10) rest
        (fun d hd => hdig d (List.mem_cons_of_mem c hd)) hrest hx10]
      have hval : (x * 10 + (c.toNat - 48)) * 10 ^ ds.length + digitsToNat ds
          = x * 10 ^ (c :: ds).length + digitsToNat (c :: ds) := by
        rw [digitsToNat_cons]
        simp only [List.length_cons, pow_succ]
        ring
      have hsc : sc * 10 * 10 ^ ds.length = sc * 10 ^ (c :: ds).length := by
        simp only [List.length_cons, pow_succ]
        ring
      rw [hval, hsc]

theorem unitScan_split (us rest : List Char)
    (hus : ∀ c ∈ us, isDigitOrDot c = false)
    (hrest : ∀ c, rest.head? = some c → isDigitOrDot c = true) :
    (us ++ rest).takeWhile (fun c => ! isDigitOrDot c) = us ∧
    (us ++ rest).dropWhile (fun c => ! isDigitOrDot c) = rest := by
  induction us with
  | nil =>
      match rest with
      | [] => simp
      | c :: r =>
          have hc := hrest c rfl
          simp [List.takeWhile, List.dropWhile, hc]
  | cons c us ih =>
      have hc : isDigitOrDot c = false := hus c (List.mem_cons_self c us)
      obtain ⟨h1, h2⟩ := ih fun d hd => hus d (List.mem_cons_of_mem c hd)
      constructor
      · show List.takeWhile _ (c :: (us ++ rest)) = _
        rw [List.takeWhile_cons]
        simp [hc, h1]
      · show List.dropWhile _ (c :: (us ++ rest)) = _
        rw [List.dropWhile_cons]
        simp [hc, h2]

theorem parseDurFrac_not_dot (c : Char) (l : List Char) (h : c ≠ '.') :
    parseDurFrac (c :: l) = ⟨0, 1, c :: l, false⟩ := by
  unfold parseDurFrac
  split
  · rename_i heq
    cases heq
    exact absurd rfl h
  · rfl

theorem parseDurSeg_spec (d v f scale : Nat) (us rest : List Char) (unit : Nat)
    (hus : ∀ c ∈ us, isDigitOrDot c = false)
    (hrest : ∀ c, rest.head? = some c → isDigitOrDot c = true)
    (hunit : unitNs us = some unit) (hupos : 0 < unit)
    (hvu : v * unit ≤ 9223372036854775808)
    (hfs : v * unit + f * unit / scale ≤ 9223372036854775808)
    (hd : d + (v * unit + f * unit / scale) ≤ 9223372036854775808) :
    parseDurSeg d v f scale (us ++ rest)
      = some (d + (v * unit + f * unit / scale), rest) := by
  have husne : us ≠ [] := by
    intro h
    rw [h] at hunit
    cases hunit
  obtain ⟨htake, hdrop⟩ := unitScan_split us rest hus hrest
  unfold parseDurSeg
  rw [htake, hdrop, if_neg husne, hunit]
  dsimp only
  have hdiv : ¬ 9223372036854775808 / unit < v := by
    have := (Nat.le_div_iff_mul_le hupos).mpr hvu
    omega
  rw [if_neg hdiv]
  by_cases hf : 0 < f
  · rw [if_pos hf]
    rw [if_neg (by omega : ¬ 9223372036854775808 < v * unit + f * unit / scale)]
    rw [if_neg (by omega : ¬ 9223372036854775808 < d + (v * unit + f * unit / scale))]
  · rw [if_neg hf]
    have hf0 : f = 0 := by omega
    subst hf0
    simp only [Nat.zero_mul, Nat.zero_div, Nat.add_zero] at hd ⊢
    rw [if_neg (by omega : ¬ 9223372036854775808 < d + v * unit)]

theorem isDigitOrDot_digit {c : Char} (h : isDigitCh c = true) : isDigitOrDot c = true := by
  simp [isDigitOrDot, h]

theorem isDigitOrDot_false_digit {c : Char} (h : isDigitOrDot c = false) :
    isDigitCh c = false := by
  simp only [isDigitOrDot, Bool.or_eq_false_iff] at h
  exact h.2

theorem isDigitOrDot_false_dot {c : Char} (h : isDigitOrDot c = false) : c ≠ '.' := by
  simp only [isDigitOrDot, Bool.or_eq_false_iff, decide_eq_false_iff_not] at h
  exact h.1

theorem fmtInt_cons (n : Nat) : ∃ c tl, fmtInt n = c :: tl ∧ isDigitCh c = true := by
  obtain ⟨c, tl, hct⟩ := List.exists_cons_of_ne_nil (fmtInt_ne_nil n)
  exact ⟨c, tl, hct, fmtInt_digits n c (by rw [hct]; exact List.mem_cons_self c tl)⟩

theorem parseDurLoop_step_nofrac (fuel d n : Nat) (us rest : List Char) (unit : Nat)
    (hus : ∀ c ∈ us, isDigitOrDot c = false)
    (hrest : ∀ c, rest.head? = some c → isDigitOrDot c = true)
    (hunit : unitNs us = some unit) (hupos : 0 < unit)
    (hn : n ≤ 9223372036854775808)
    (hvu : n * unit ≤ 9223372036854775808)
    (hd : d + n * unit ≤ 9223372036854775808) :
    parseDurLoop (fuel + 1) d (fmtInt n ++ us ++ rest)
      = parseDurLoop fuel (d + n * unit) rest := by
  obtain ⟨c, tl, hct, hcdig⟩ := fmtInt_cons n
  have husne : us ≠ [] := fun h => by rw [h] at hunit; cases hunit
  obtain ⟨u0, us', hus'⟩ := List.exists_cons_of_ne_nil husne
  have hu0 : isDigitOrDot u0 = false := hus u0 (by rw [hus']; exact List.mem_cons_self u0 us')
  have hafter : ∀ e, (us ++ rest).head? = some e → isDigitCh e = false := by
    intro e he
    rw [hus'] at he
    simp only [List.cons_append, List.head?_cons, Option.some.injEq] at he
    rw [← he]
    exact isDigitOrDot_false_digit hu0
  have hlead : leadingIntAux 0 (fmtInt n ++ (us ++ rest)) = some (n, us ++ rest) := by
    rw [leadingIntAux_spec (fmtInt n) 0 (us ++ rest) (fmtInt_digits n) hafter
      (by simp [fmtInt_val]; omega)]
    simp [fmtInt_val]
  have hfrac : parseDurFrac (us ++ rest) = ⟨0, 1, us ++ rest, false⟩ := by
    rw [hus', List.cons_append]
    exact parseDurFrac_not_dot u0 (us' ++ rest) (isDigitOrDot_false_dot hu0)
  have hseg : parseDurSeg d n 0 1 (us ++ rest) = some (d + n * unit, rest) := by
    have := parseDurSeg_spec d n 0 1 us rest unit hus hrest hunit hupos hvu
      (by simpa using hvu) (by simpa using hd)
    simpa using this
  have hshape : fmtInt n ++ us ++ rest = c :: (tl ++ (us ++ rest)) := by
    rw [hct]
    simp
  rw [hshape]
  simp only [parseDurLoop]
  rw [show (c :: (tl ++ (us ++ rest))) = fmtInt n ++ (us ++ rest) from by
    rw [hct, List.cons_append]]
  rw [isDigitOrDot_digit hcdig, hlead]
  simp only [if_true]
  rw [hfrac]
  simp only [hcdig, Bool.true_or, if_true]
  rw [hseg]

theorem parseDurLoop_step_frac (fuel d n : Nat) (D us rest : List Char) (unit : Nat)
    (hD : ∀ c ∈ D, isDigitCh c = true) (hDne : D ≠ [])
    (hDcap : digitsToNat D ≤ 922337203685477580)
    (hus : ∀ c ∈ us, isDigitOrDot c = false)
    (hrest : ∀ c, rest.head? = some c → isDigitOrDot c = true)
    (hunit : unitNs us = some unit) (hupos : 0 < unit)
    (hn : n ≤ 9223372036854775808)
    (hvu : n * unit ≤ 9223372036854775808)
    (hfs : n * unit + digitsToNat D * unit / 10 ^ D.length ≤ 9223372036854775808)
    (hd : d + (n * unit + digitsToNat D * unit / 10 ^ D.length) ≤ 9223372036854775808) :
    parseDurLoop (fuel + 1) d (fmtInt n ++ ('.' :: D) ++ us ++ rest)
      = parseDurLoop fuel (d + (n * unit + digitsToNat D * unit / 10 ^ D.length)) rest := by
  obtain ⟨c, tl, hct, hcdig⟩ := fmtInt_cons n
  have husne : us ≠ [] := fun h => by rw [h] at hunit; cases hunit
  obtain ⟨u0, us', hus'⟩ := List.exists_cons_of_ne_nil husne
  have hu0 : isDigitOrDot u0 = false := hus u0 (by rw [hus']; exact List.mem_cons_self u0 us')
  obtain ⟨d0, D', hD'⟩ := List.exists_cons_of_ne_nil hDne
  have hd0 : isDigitCh d0 = true := hD d0 (by rw [hD']; exact List.mem_cons_self d0 D')
  have hafterD : ∀ e, (us ++ rest).head? = some e → isDigitCh e = false := by
    intro e he
    rw [hus'] at he
    simp only [List.cons_append, List.head?_cons, Option.some.injEq] at he
    rw [← he]
    exact isDigitOrDot_false_digit hu0
  have hafterInt : ∀ e, (('.' :: D) ++ (us ++ rest)).head? = some e → isDigitCh e = false := by
    intro e he
    simp only [List.cons_append, List.head?_cons, Option.some.injEq] at he
    rw [← he]
    decide
  have hlead : leadingIntAux 0 (fmtInt n ++ (('.' :: D) ++ (us ++ rest)))
      = some (n, ('.' :: D) ++ (us ++ rest)) := by
    rw [leadingIntAux_spec (fmtInt n) 0 (('.' :: D) ++ (us ++ rest)) (fmtInt_digits n)
      hafterInt (by simp [fmtInt_val]; omega)]
    simp [fmtInt_val]
  have hlf : leadingFractionAux 0 1 false (D ++ (us ++ rest))
      = (digitsToNat D, 10 ^ D.length, us ++ rest) := by
    rw [leadingFractionAux_spec D 0 1 (us ++ rest) hD hafterD (by simpa using hDcap)]
    simp
  have hfrac : parseDurFrac (('.' :: D) ++ (us ++ rest))
      = ⟨digitsToNat D, 10 ^ D.length, us ++ rest, true⟩ := by
    rw [hD'] at hlf
    show parseDurFrac ('.' :: (D ++ (us ++ rest))) = _
    rw [hD']
    unfold parseDurFrac
    split
    · rename_i r2 heq
      injection heq with h1 h2
      subst h2
      rw [hlf]
      simp [hd0]
    · rename_i hne
      exact absurd rfl (hne (d0 :: D' ++ (us ++ rest)))
  have hseg : parseDurSeg d n (digitsToNat D) (10 ^ D.length) (us ++ rest)
      = some (d + (n * unit + digitsToNat D * unit / 10 ^ D.length), rest) :=
    parseDurSeg_spec d n (digitsToNat D) (10 ^ D.length) us rest unit hus hrest hunit
      hupos hvu hfs hd
  have hshape : fmtInt n ++ ('.' :: D) ++ us ++ rest
      = c :: (tl ++ (('.' :: D) ++ (us ++ rest))) := by
    rw [hct]
    simp
  rw [hshape]
  simp only [parseDurLoop]
  rw [show (c :: (tl ++ (('.' :: D) ++ (us ++ rest))))
      = fmtInt n ++ (('.' :: D) ++ (us ++ rest)) from by rw [hct]; simp]
  rw [isDigitOrDot_digit hcdig, hlead]
  simp only [if_true]
  rw [hfrac]
  simp only [hcdig, Bool.true_or, if_true]
  rw [hseg]

theorem frac_contrib (f k p : Nat) (h : k ≤ p) : f * 10 ^ p / 10 ^ k = f * 10 ^ (p - k) := by
  have hp : (10:Nat) ^ p = 10 ^ (p - k) * 10 ^ k := by
    rw [← pow_add]
    congr 1
    omega
  rw [hp, ← Nat.mul_assoc]
  exact Nat.mul_div_cancel _ (Nat.pos_pow_of_pos k (by omega))

theorem fmtInt_append_head (n : Nat) (zs : List Char) :
    ∀ c, (fmtInt n ++ zs).head? = some c → isDigitOrDot c = true := by
  obtain ⟨c0, tl, hct, hdig⟩ := fmtInt_cons n
  intro c hc
  rw [hct] at hc
  simp only [List.cons_append, List.head?_cons, Option.some.injEq] at hc
  rw [← hc]
  exact isDigitOrDot_digit hdig

theorem parseDurLoop_valseg (fuel d n prec u : Nat) (us rest : List Char)
    (hus : ∀ c ∈ us, isDigitOrDot c = false)
    (hrest : ∀ c, rest.head? = some c → isDigitOrDot c = true)
    (hunit : unitNs us = some (10 ^ prec)) (hprec : prec ≤ 12)
    (hn : n ≤ 9223372036854775808)
    (hvu : n * 10 ^ prec ≤ 9223372036854775808)
    (hd : d + (n * 10 ^ prec + u % 10 ^ prec) ≤ 9223372036854775808) :
    parseDurLoop (fuel + 1) d (fmtInt n ++ stripFrac prec u ++ us ++ rest)
      = parseDurLoop fuel (d + (n * 10 ^ prec + u % 10 ^ prec)) rest := by
  have hupos : 0 < 10 ^ prec := Nat.pos_pow_of_pos prec (by omega)
  rcases stripFrac_elim prec u with ⟨hz, hF⟩ | ⟨D, hF, hdig, hne, hlen, hval, hpos⟩
  · rw [hF]
    simp only [List.append_nil]
    rw [parseDurLoop_step_nofrac fuel d n us rest (10 ^ prec) hus hrest hunit hupos hn hvu
      (by omega)]
    rw [hz, Nat.add_zero]
  · rw [hF]
    have hcap : digitsToNat D ≤ 922337203685477580 := by
      have h1 : digitsToNat D < 10 ^ D.length := digitsToNat_lt D hdig
      have h2 : (10:Nat) ^ D.length ≤ 10 ^ 12 :=
        Nat.pow_le_pow_right (by omega) (by omega)
      have h3 : (10:Nat) ^ 12 = 1000000000000 := by norm_num
      omega
    have hcontrib : digitsToNat D * 10 ^ prec / 10 ^ D.length = u % 10 ^ prec := by
      rw [frac_contrib _ _ _ hlen, hval]
    rw [parseDurLoop_step_frac fuel d n D us rest (10 ^ prec) hdig hne hcap hus hrest hunit
      hupos hn hvu (by rw [hcontrib]; omega) (by rw [hcontrib]; omega)]
    rw [hcontrib]

theorem parseDurLoop_nil (fuel d : Nat) : parseDurLoop fuel d [] = some d := by
  cases fuel <;> rfl

theorem head?_none_elim {α : Type} (P : α → Prop) :
    ∀ c, ([] : List α).head? = some c → P c := by
  intro c h
  cases h

theorem parseDurLoop_core (u : Nat) (hu : u ≤ 9223372036854775808) (k : Nat) :
    parseDurLoop (k + 3) 0 (durCore u) = some u := by
  have h12 : (10:Nat) ^ 12 = 1000000000000 := by norm_num
  have h9 : (10:Nat) ^ 9 = 1000000000 := by norm_num
  have h6 : (10:Nat) ^ 6 = 1000000 := by norm_num
  have h3 : (10:Nat) ^ 3 = 1000 := by norm_num
  have h0 : (10:Nat) ^ 0 = 1 := by norm_num
  by_cases hlt : u < 1000000000
  · by_cases hz : u = 0
    · subst hz
      have hcore : durCore 0 = fmtInt 0 ++ stripFrac 9 0 ++ ['s'] ++ [] := by decide
      rw [hcore, show k + 3 = (k + 2) + 1 from rfl]
      rw [parseDurLoop_valseg (k + 2) 0 0 9 0 ['s'] [] (by decide)
        (head?_none_elim _) (by decide) (by omega) (by omega) (by omega) (by omega)]
      rw [parseDurLoop_nil]
      simp
    · by_cases hns : u < 1000
      · have hcore : durCore u = fmtInt u ++ stripFrac 0 u ++ ['n', 's'] ++ [] := by
          unfold durCore
          rw [if_pos hlt, if_neg hz, if_pos hns]
          simp [stripFrac]
        rw [hcore, show k + 3 = (k + 2) + 1 from rfl]
        rw [parseDurLoop_valseg (k + 2) 0 u 0 u ['n', 's'] [] (by decide)
          (head?_none_elim _) (by decide) (by omega) (by omega)
          (by rw [h0]; omega) (by rw [h0]; omega)]
        rw [parseDurLoop_nil]
        rw [h0]
        congr 1
        omega
      · by_cases hmu : u < 1000000
        · have hcore : durCore u = fmtInt (u / 10 ^ 3) ++ stripFrac 3 u ++ ['µ', 's'] ++ [] := by
            unfold durCore
            rw [if_pos hlt, if_neg hz, if_neg hns, if_pos hmu]
            simp [fmtFrac_eq]
          rw [hcore, show k + 3 = (k + 2) + 1 from rfl]
          rw [parseDurLoop_valseg (k + 2) 0 (u / 10 ^ 3) 3 u ['µ', 's'] [] (by decide)
            (head?_none_elim _) (by decide) (by omega) (by rw [h3]; omega)
            (by rw [h3]; omega) (by rw [h3]; omega)]
          rw [parseDurLoop_nil]
          rw [h3]
          congr 1
          omega
        · have hcore : durCore u = fmtInt (u / 10 ^ 6) ++ stripFrac 6 u ++ ['m', 's'] ++ [] := by
            unfold durCore
            rw [if_pos hlt, if_neg hz, if_neg hns, if_neg hmu]
            simp [fmtFrac_eq]
          rw [hcore, show k + 3 = (k + 2) + 1 from rfl]
          rw [parseDurLoop_valseg (k + 2) 0 (u / 10 ^ 6) 6 u ['m', 's'] [] (by decide)
            (head?_none_elim _) (by decide) (by omega) (by rw [h6]; omega)
            (by rw [h6]; omega) (by rw [h6]; omega)]
          rw [parseDurLoop_nil]
          rw [h6]
          congr 1
          omega
  · by_cases hm : u / 10 ^ 9 / 60 = 0
    · have hcore : durCore u = fmtInt (u / 10 ^ 9 % 60) ++ stripFrac 9 u ++ ['s'] ++ [] := by
        unfold durCore
        rw [if_neg hlt]
        simp only [fmtFrac_eq]
        rw [if_pos hm]
        simp
      rw [hcore, show k + 3 = (k + 2) + 1 from rfl]
      rw [parseDurLoop_valseg (k + 2) 0 (u / 10 ^ 9 % 60) 9 u ['s'] [] (by decide)
        (head?_none_elim _) (by decide) (by omega) (by rw [h9]; omega)
        (by rw [h9]; omega) (by rw [h9]; omega)]
      rw [parseDurLoop_nil]
      rw [h9]
      congr 1
      omega
    · by_cases hh : u / 10 ^ 9 / 60 / 60 = 0
      · have hcore : durCore u = fmtInt (u / 10 ^ 9 / 60 % 60) ++ ['m']
            ++ (fmtInt (u / 10 ^ 9 % 60) ++ stripFrac 9 u ++ ['s'] ++ []) := by
          unfold durCore
          rw [if_neg hlt]
          simp only [fmtFrac_eq]
          rw [if_neg hm, if_pos hh]
          simp
        rw [hcore, show k + 3 = (k + 2) + 1 from rfl]
        rw [parseDurLoop_step_nofrac (k + 2) 0 (u / 10 ^ 9 / 60 % 60)
          ['m'] (fmtInt (u / 10 ^ 9 % 60) ++ stripFrac 9 u ++ ['s'] ++ []) 60000000000
          (by decide)
          (by
            intro c hc
            apply fmtInt_append_head (u / 10 ^ 9 % 60) (stripFrac 9 u ++ (['s'] ++ []))
            rw [show fmtInt (u / 10 ^ 9 % 60) ++ (stripFrac 9 u ++ (['s'] ++ []))
                = fmtInt (u / 10 ^ 9 % 60) ++ stripFrac 9 u ++ ['s'] ++ [] by simp]
            exact hc)
          (by decide) (by decide) (by rw [h9]; omega) (by rw [h9]; omega)
          (by rw [h9]; omega)]
        rw [show k + 2 = (k + 1) + 1 from rfl]
        rw [parseDurLoop_valseg (k + 1) _ (u / 10 ^ 9 % 60) 9 u ['s'] [] (by decide)
          (head?_none_elim _) (by decide) (by omega) (by rw [h9]; omega)
          (by rw [h9]; omega) (by rw [h9]; omega)]
        rw [parseDurLoop_nil]
        rw [h9]
        congr 1
        omega
      · have hcore : durCore u = fmtInt (u / 10 ^ 9 / 60 / 60) ++ ['h']
            ++ (fmtInt (u / 10 ^ 9 / 60 % 60) ++ ['m']
              ++ (fmtInt (u / 10 ^ 9 % 60) ++ stripFrac 9 u ++ ['s'] ++ [])) := by
          unfold durCore
          rw [if_neg hlt]
          simp only [fmtFrac_eq]
          rw [if_neg hm, if_neg hh]
          simp
        rw [hcore, show k + 3 = (k + 2) + 1 from rfl]
        rw [parseDurLoop_step_nofrac (k + 2) 0 (u / 10 ^ 9 / 60 / 60)
          ['h'] (fmtInt (u / 10 ^ 9 / 60 % 60) ++ ['m']
            ++ (fmtInt (u / 10 ^ 9 % 60) ++ stripFrac 9 u ++ ['s'] ++ [])) 3600000000000
          (by decide)
          (by
            intro c hc
            apply fmtInt_append_head (u / 10 ^ 9 / 60 % 60)
              (['m'] ++ (fmtInt (u / 10 ^ 9 % 60) ++ stripFrac 9 u ++ ['s'] ++ []))
            rw [show fmtInt (u / 10 ^ 9 / 60 % 60)
                  ++ (['m'] ++ (fmtInt (u / 10 ^ 9 % 60) ++ stripFrac 9 u ++ ['s'] ++ []))
                = fmtInt (u / 10 ^ 9 / 60 % 60) ++ ['m']
                  ++ (fmtInt (u / 10 ^ 9 % 60) ++ stripFrac 9 u ++ ['s'] ++ []) by simp]
            exact hc)
          (by decide) (by decide) (by rw [h9]; omega) (by rw [h9]; omega)
          (by rw [h9]; omega)]
        rw [show k + 2 = (k + 1) + 1 from rfl]
        rw [parseDurLoop_step_nofrac (k + 1) _ (u / 10 ^ 9 / 60 % 60)
          ['m'] (fmtInt (u / 10 ^ 9 % 60) ++ stripFrac 9 u ++ ['s'] ++ []) 60000000000
          (by decide)
          (by
            intro c hc
            apply fmtInt_append_head (u / 10 ^ 9 % 60) (stripFrac 9 u ++ (['s'] ++ []))
            rw [show fmtInt (u / 10 ^ 9 % 60) ++ (stripFrac 9 u ++ (['s'] ++ []))
                = fmtInt (u / 10 ^ 9 % 60) ++ stripFrac 9 u ++ ['s'] ++ [] by simp]
            exact hc)
          (by decide) (by decide) (by rw [h9]; omega) (by rw [h9]; omega)
          (by rw [h9]; omega)]
        rw [show k + 1 = k + 1 from rfl]
        rw [parseDurLoop_valseg k _ (u / 10 ^ 9 % 60) 9 u ['s'] [] (by decide)
          (head?_none_elim _) (by decide) (by omega) (by rw [h9]; omega)
          (by rw [h9]; omega) (by rw [h9]; omega)]
        rw [parseDurLoop_nil]
        rw [h9]
        congr 1
        omega

theorem fmtInt_length_pos (n : Nat) : 0 < (fmtInt n).length :=
  List.length_pos.mpr (fmtInt_ne_nil n)

theorem durCore_length (u : Nat) : 2 ≤ (durCore u).length := by
  have h1 := fmtInt_length_pos u
  have h2 := fmtInt_length_pos ((fmtFrac u 3).2)
  have h3 := fmtInt_length_pos ((fmtFrac u 6).2)
  have h4 := fmtInt_length_pos ((fmtFrac u 9).2 % 60)
  unfold durCore
  dsimp only
  split
  · split
    · decide
    · split
      · simp only [List.length_append, List.length_cons, List.length_nil]
        omega
      · split
        · simp only [List.length_append, List.length_cons, List.length_nil]
          omega
        · simp only [List.length_append, List.length_cons, List.length_nil]
          omega
  · split
    · simp only [List.length_append, List.length_cons, List.length_nil]
      omega
    · split
      · simp only [List.length_append, List.length_cons, List.length_nil]
        omega
      · simp only [List.length_append, List.length_cons, List.length_nil]
        omega

theorem durCore_head_digit (u : Nat) :
    ∃ c tl, durCore u = c :: tl ∧ isDigitCh c = true := by
  obtain ⟨c1, t1, he1, hd1⟩ := fmtInt_cons u
  obtain ⟨c2, t2, he2, hd2⟩ := fmtInt_cons ((fmtFrac u 3).2)
  obtain ⟨c3, t3, he3, hd3⟩ := fmtInt_cons ((fmtFrac u 6).2)
  obtain ⟨c4, t4, he4, hd4⟩ := fmtInt_cons ((fmtFrac u 9).2 % 60)
  obtain ⟨c5, t5, he5, hd5⟩ := fmtInt_cons ((fmtFrac u 9).2 / 60 % 60)
  obtain ⟨c6, t6, he6, hd6⟩ := fmtInt_cons ((fmtFrac u 9).2 / 60 / 60)
  unfold durCore
  dsimp only
  split
  · split
    · exact ⟨'0', ['s'], rfl, by decide⟩
    · split
      · exact ⟨c1, t1 ++ ['n', 's'], by rw [he1]; simp, hd1⟩
      · split
        · exact ⟨c2, t2 ++ (fmtFrac u 3).1 ++ ['µ', 's'], by rw [he2]; simp, hd2⟩
        · exact ⟨c3, t3 ++ (fmtFrac u 6).1 ++ ['m', 's'], by rw [he3]; simp, hd3⟩
  · split
    · exact ⟨c4, t4 ++ (fmtFrac u 9).1 ++ ['s'], by rw [he4]; simp, hd4⟩
    · split
      · exact ⟨c5, t5 ++ ['m'] ++ (fmtInt ((fmtFrac u 9).2 % 60) ++ (fmtFrac u 9).1 ++ ['s']),
          by rw [he5]; simp, hd5⟩
      · exact ⟨c6, t6 ++ 'h' :: (fmtInt ((fmtFrac u 9).2 / 60 % 60) ++ ['m']
            ++ (fmtInt ((fmtFrac u 9).2 % 60) ++ (fmtFrac u 9).1 ++ ['s'])),
          by rw [he6]; simp, hd6⟩

theorem digit_ne_quote {c : Char} (h : isDigitCh c = true) : c ≠ '"' := by
  intro heq
  rw [heq] at h
  cases h

theorem fmtInt_no_quote (n : Nat) : ∀ c ∈ fmtInt n, c ≠ '"' :=
  fun c hc => digit_ne_quote (fmtInt_digits n c hc)

theorem stripFrac_no_quote (p v : Nat) : ∀ c ∈ stripFrac p v, c ≠ '"' := by
  intro c hc
  rcases stripFrac_elim p v with ⟨_, hF⟩ | ⟨D, hF, hdig, _, _, _, _⟩
  · rw [hF] at hc
    cases hc
  · rw [hF] at hc
    rcases List.mem_cons.mp hc with h | h
    · rw [h]; decide
    · exact digit_ne_quote (hdig c h)

theorem durCore_no_quote (u : Nat) : ∀ c ∈ durCore u, c ≠ '"' := by
  intro c hc
  unfold durCore at hc
  dsimp only at hc
  split at hc
  · split at hc
    · simp only [List.mem_cons, List.mem_singleton] at hc
      rcases hc with rfl | rfl | h
      · decide
      · decide
      · cases h
    · split at hc
      · rcases List.mem_append.mp hc with h | h
        · exact fmtInt_no_quote _ _ h
        · simp only [List.mem_cons, List.mem_singleton] at h
          rcases h with rfl | rfl | h
          · decide
          · decide
          · cases h
      · split at hc <;>
        · rcases List.mem_append.mp hc with h | h
          · rcases List.mem_append.mp h with h' | h'
            · exact fmtInt_no_quote _ _ h'
            · rw [fmtFrac_eq] at h'
              exact stripFrac_no_quote _ _ _ h'
          · simp only [List.mem_cons, List.mem_singleton] at h
            rcases h with rfl | rfl | h
            · decide
            · decide
            · cases h
  · have hsec : ∀ e ∈ fmtInt ((fmtFrac u 9).2 % 60) ++ (fmtFrac u 9).1 ++ ['s'],
        e ≠ '"' := by
      intro e he
      rcases List.mem_append.mp he with h | h
      · rcases List.mem_append.mp h with h' | h'
        · exact fmtInt_no_quote _ _ h'
        · rw [fmtFrac_eq] at h'
          exact stripFrac_no_quote _ _ _ h'
      · rw [List.mem_singleton.mp h]
        decide
    split at hc
    · exact hsec c hc
    · split at hc
      · rcases List.mem_append.mp hc with h | h
        · rcases List.mem_append.mp h with h' | h'
          · exact fmtInt_no_quote _ _ h'
          · rw [List.mem_singleton.mp h']
            decide
        · exact hsec c h
      · rcases List.mem_append.mp hc with h | h
        · exact fmtInt_no_quote _ _ h
        · rcases List.mem_cons.mp h with h' | h'
          · rw [h']; decide
          · rcases List.mem_append.mp h' with h2 | h2
            · rcases List.mem_append.mp h2 with h3 | h3
              · exact fmtInt_no_quote _ _ h3
              · rw [List.mem_singleton.mp h3]
                decide
            · exact hsec c h2

theorem parseDurSeg_le (d v f sc : Nat) (r : List Char) (d1 : Nat) (r4 : List Char)
    (h : parseDurSeg d v f sc r = some (d1, r4)) : d1 ≤ 9223372036854775808 := by
  unfold parseDurSeg at h
  dsimp only at h
  split at h
  · cases h
  · split at h
    · cases h
    · split at h
      · cases h
      · split at h
        · split at h
          · cases h
          · split at h
            · cases h
            · rename_i hle
              injection h with h'
              injection h' with h1 h2
              omega
        · split at h
          · cases h
          · rename_i hle
            injection h with h'
            injection h' with h1 h2
            omega

theorem parseDurLoop_le : ∀ fuel d0 cs d, parseDurLoop fuel d0 cs = some d →
    d0 ≤ 9223372036854775808 → d ≤ 9223372036854775808 := by
  intro fuel
  induction fuel with
  | zero =>
      intro d0 cs d h hd0
      match cs with
      | [] =>
          injection h with h'
          omega
      | _ :: _ => cases h
  | succ fuel ih =>
      intro d0 cs d h hd0
      match cs with
      | [] =>
          injection h with h'
          omega
      | c :: cs' =>
          simp only [parseDurLoop] at h
          split at h
          · split at h
            · cases h
            · split at h
              · split at h
                · cases h
                · rename_i p hseg
                  exact ih _ _ d h (parseDurSeg_le _ _ _ _ _ _ _ hseg)
              · cases h
          · cases h

theorem parseDurBody_range (neg : Bool) (cs : List Char) (d : Int)
    (h : parseDurBody neg cs = some d) :
    -(9223372036854775808 : Int) ≤ d ∧ d < 9223372036854775808 := by
  unfold parseDurBody at h
  split at h
  · injection h with h'
    omega
  · split at h
    · cases h
    · split at h
      · cases h
      · rename_i dn hdn
        have hle := parseDurLoop_le _ 0 cs dn hdn (by omega)
        split at h
        · injection h with h'
          omega
        · split at h
          · cases h
          · rename_i hcap
            injection h with h'
            omega

theorem parseDuration_no_sign (c : Char) (tl : List Char) (h1 : c ≠ '-') (h2 : c ≠ '+') :
    parseDuration (c :: tl) = parseDurBody false (c :: tl) := by
  unfold parseDuration
  split
  · rename_i r heq
    injection heq with hc _
    exact absurd hc h1
  · rename_i r heq
    injection heq with hc _
    exact absurd hc h2
  · rfl

theorem duration_roundtrip_core (d : Int)
    (hlo : -(9223372036854775808 : Int) ≤ d) (hhi : d < 9223372036854775808) :
    parseDuration (durationStr d) = some d := by
  have hu : d.natAbs ≤ 9223372036854775808 := by omega
  have hlen := durCore_length d.natAbs
  have hne0 : durCore d.natAbs ≠ ['0'] := by
    intro h
    rw [h] at hlen
    simp at hlen
  have hnenil : durCore d.natAbs ≠ [] := by
    intro h
    rw [h] at hlen
    simp at hlen
  have hk : (durCore d.natAbs).length + 1 = ((durCore d.natAbs).length - 2) + 3 := by omega
  have hbody : ∀ neg, parseDurBody neg (durCore d.natAbs) =
      if neg then some (-(d.natAbs : Int))
      else if 9223372036854775807 < d.natAbs then none else some ((d.natAbs : Nat) : Int) := by
    intro neg
    unfold parseDurBody
    rw [if_neg hne0, if_neg hnenil, hk,
      parseDurLoop_core d.natAbs hu ((durCore d.natAbs).length - 2)]
  by_cases hneg : d < 0
  · have hstr : durationStr d = '-' :: durCore d.natAbs := by
      unfold durationStr
      rw [if_pos hneg]
    rw [hstr]
    show parseDurBody true (durCore d.natAbs) = some d
    rw [hbody true, if_pos rfl]
    congr 1
    omega
  · have hstr : durationStr d = durCore d.natAbs := by
      unfold durationStr
      rw [if_neg hneg]
    rw [hstr]
    obtain ⟨c0, tl0, hct, hcd⟩ := durCore_head_digit d.natAbs
    have hbounds := isDigitCh_bounds hcd
    rw [hct, parseDuration_no_sign c0 tl0
      (by
        intro hq
        rw [hq] at hbounds
        revert hbounds
        decide)
      (by
        intro hq
        rw [hq] at hbounds
        revert hbounds
        decide), ← hct]
    rw [hbody false]
    simp only [Bool.false_eq_true, if_false]
    rw [if_neg (by omega : ¬ 9223372036854775807 < d.natAbs)]
    congr 1
    omega

theorem parseDuration_range (cs : List Char) (d : Int) (h : parseDuration cs = some d) :
    -(9223372036854775808 : Int) ≤ d ∧ d < 9223372036854775808 := by
  unfold parseDuration at h
  split at h
  · exact parseDurBody_range true _ _ h
  · exact parseDurBody_range false _ _ h
  · exact parseDurBody_range false _ _ h

theorem durationStr_no_quote (d : Int) : ∀ c ∈ durationStr d, c ≠ '"' := by
  intro c hc
  unfold durationStr at hc
  split at hc
  · rcases List.mem_cons.mp hc with h | h
    · rw [h]; decide
    · exact durCore_no_quote _ _ h
  · exact durCore_no_quote _ _ hc

theorem durationMarshal_strip (d : Int) :
    ((durationMarshal d).data.filter fun c => c ≠ '"') = durationStr d := by
  show (('"' :: (durationStr d ++ ['"'])).filter fun c => c ≠ '"') = durationStr d
  rw [List.filter_cons, List.filter_append]
  have h1 : (durationStr d).filter (fun c => decide (c ≠ '"')) = durationStr d :=
    List.filter_eq_self.mpr (by
      intro a ha
      simpa using durationStr_no_quote d a ha)
  have h2 : (['"'] : List Char).filter (fun c => decide (c ≠ '"')) = [] := by decide
  simp only [h1, h2, List.append_nil]
  rw [if_neg (by simp)]

/-- C7: parse-serialize-parse is the identity on parse results: for
every string accepted by `Duration.UnmarshalJSON`, re-serializing the
parsed duration via `Duration.MarshalJSON` and parsing again yields the
identical value; in particular "1h23m45.67s" parses to 5025670000000 ns
and re-serializes to exactly that canonical string. -/
theorem duration_parse_marshal_roundtrip (s : String) (d : Int)
    (h : durationUnmarshal s = some d) :
    durationUnmarshal (durationMarshal d) = some d ∧
    durationUnmarshal "\"1h23m45.67s\"" = some 5025670000000 ∧
    durationMarshal 5025670000000 = "\"1h23m45.67s\"" := by
  refine ⟨?_, rfl, by decide⟩
  have hrange := parseDuration_range (s.data.filter fun c => c ≠ '"') d h
  show parseDuration ((durationMarshal d).data.filter fun c => c ≠ '"') = some d
  rw [durationMarshal_strip]
  exact duration_roundtrip_core d hrange.1 hrange.2

/-- Witness for `duration_parse_marshal_roundtrip` at the claim's
concrete input. -/
theorem duration_parse_marshal_roundtrip_witness :
    durationUnmarshal (durationMarshal 5025670000000) = some 5025670000000 ∧
    durationUnmarshal "\"1h23m45.67s\"" = some 5025670000000 ∧
    durationMarshal 5025670000000 = "\"1h23m45.67s\"" :=
  duration_parse_marshal_roundtrip "\"1h23m45.67s\"" 5025670000000 rfl
